import Mathlib

/-!
Verification of the xfl2svg core (edge decoding, segment graph cycle cover,
geometry, SVG path emission) against its natural-language specification.

The Python sources are shallowly embedded:
* Python floats are modelled as exact rationals (`ℚ`); all arithmetic the
  claims exercise is exact in both worlds.
* `math.inf` critical parameters are modelled as `none` (the code only ever
  compares them with `0 < t < 1`, which is false for `inf`).
* Generators are modelled as functions returning the list of yielded values;
  an uncaught Python exception is an `Except.error`.
* Python `set.pop` order is modelled by an explicit chooser function (`pick`),
  and theorems about the cycle cover quantify over all choosers.
-/

set_option maxHeartbeats 1000000
set_option linter.unusedSectionVars false

/-- An axis-aligned bounding box `(minX, minY, maxX, maxY)`. -/
abbrev BBox := ℚ × ℚ × ℚ × ℚ

namespace Util

/-- util.py `line_bounding_box`. -/
def line_bounding_box (p1 p2 : ℚ × ℚ) : BBox :=
  (min p1.1 p2.1, min p1.2 p2.2, max p1.1 p2.1, max p1.2 p2.2)

/-- util.py `quadratic_bezier` (the correct de Casteljau form, with the
`t * p3` factor present). -/
def quadratic_bezier (p1 p2 p3 : ℚ × ℚ) (t : ℚ) : ℚ × ℚ :=
  ((1 - t) * ((1 - t) * p1.1 + t * p2.1) + t * ((1 - t) * p2.1 + t * p3.1),
   (1 - t) * ((1 - t) * p1.2 + t * p2.2) + t * ((1 - t) * p2.2 + t * p3.2))

/-- util.py `quadratic_critical_points`; `math.inf` (zero denominator) is
modelled as `none`. -/
def quadratic_critical_points (p1 p2 p3 : ℚ × ℚ) : Option ℚ × Option ℚ :=
  (if p1.1 - 2 * p2.1 + p3.1 = 0 then none
   else some ((p1.1 - p2.1) / (p1.1 - 2 * p2.1 + p3.1)),
   if p1.2 - 2 * p2.2 + p3.2 = 0 then none
   else some ((p1.2 - p2.2) / (p1.2 - 2 * p2.2 + p3.2)))

/-- Guard `t3 > 0 and t3 < 1` from util.py (false for `math.inf`, i.e. `none`). -/
def critInUnit : Option ℚ → Bool
  | none => false
  | some t => decide (0 < t ∧ t < 1)

/-- The candidate point `p3`/`p4` of util.py `quadratic_bounding_box`: the
curve point at the critical parameter when `t3 > 0 and t3 < 1` (false for
`math.inf`, i.e. `none`), otherwise the start point `p1` (chosen arbitrarily
so it does not affect the min/max). -/
def critCandidate (p1 control p2 : ℚ × ℚ) : Option ℚ → ℚ × ℚ
  | some t => if 0 < t ∧ t < 1 then quadratic_bezier p1 control p2 t else p1
  | none => p1

/-- util.py `quadratic_bounding_box`. -/
def quadratic_bounding_box (p1 control p2 : ℚ × ℚ) : BBox :=
  let c := quadratic_critical_points p1 control p2
  let p3 := critCandidate p1 control p2 c.1
  let p4 := critCandidate p1 control p2 c.2
  (min p1.1 (min p2.1 (min p3.1 p4.1)),
   min p1.2 (min p2.2 (min p3.2 p4.2)),
   max p1.1 (max p2.1 (max p3.1 p4.1)),
   max p1.2 (max p2.2 (max p3.2 p4.2)))

/-- util.py `merge_bounding_boxes` (`None` is the identity). -/
def merge_bounding_boxes : Option BBox → Option BBox → Option BBox
  | original, none => original
  | none, some addition => some addition
  | some o, some a =>
      some (min o.1 a.1, min o.2.1 a.2.1, max o.2.2.1 a.2.2.1, max o.2.2.2 a.2.2.2)

end Util

namespace EdgePy

/-- edge.py `line_bounding_box` (textually identical to util.py's). -/
def line_bounding_box (p1 p2 : ℚ × ℚ) : BBox :=
  (min p1.1 p2.1, min p1.2 p2.2, max p1.1 p2.1, max p1.2 p2.2)

/-- edge.py `quadratic_bezier`. NOTE: faithfully embeds the source, whose
second term is `t * ((1 - t) * p2 + p3)` — the `t` factor on `p3` present in
util.py is missing here. -/
def quadratic_bezier (p1 p2 p3 : ℚ × ℚ) (t : ℚ) : ℚ × ℚ :=
  ((1 - t) * ((1 - t) * p1.1 + t * p2.1) + t * ((1 - t) * p2.1 + p3.1),
   (1 - t) * ((1 - t) * p1.2 + t * p2.2) + t * ((1 - t) * p2.2 + p3.2))

/-- edge.py `quadratic_critical_points` (identical to util.py's). -/
def quadratic_critical_points (p1 p2 p3 : ℚ × ℚ) : Option ℚ × Option ℚ :=
  (if p1.1 - 2 * p2.1 + p3.1 = 0 then none
   else some ((p1.1 - p2.1) / (p1.1 - 2 * p2.1 + p3.1)),
   if p1.2 - 2 * p2.2 + p3.2 = 0 then none
   else some ((p1.2 - p2.2) / (p1.2 - 2 * p2.2 + p3.2)))

/-- edge.py `quadratic_bounding_box`: same shape as util.py's, but it calls
edge.py's `quadratic_bezier`. -/
def quadratic_bounding_box (p1 control p2 : ℚ × ℚ) : BBox :=
  let c := quadratic_critical_points p1 control p2
  let p3 := match c.1 with
    | some t => if 0 < t ∧ t < 1 then quadratic_bezier p1 control p2 t else p1
    | none => p1
  let p4 := match c.2 with
    | some t => if 0 < t ∧ t < 1 then quadratic_bezier p1 control p2 t else p1
    | none => p1
  (min p1.1 (min p2.1 (min p3.1 p4.1)),
   min p1.2 (min p2.2 (min p3.2 p4.2)),
   max p1.1 (max p2.1 (max p3.1 p4.1)),
   max p1.2 (max p2.2 (max p3.2 p4.2)))

/-- Value of a decimal digit character, if it is one. -/
def decDigitVal (c : Char) : Option ℕ :=
  if '0' ≤ c ∧ c ≤ '9' then some (c.toNat - '0'.toNat) else none

/-- Value of a hexadecimal digit character as accepted by `bytes.fromhex`
(both cases), if it is one; the comparisons are on code points (48-57 is
`0`-`9`, 65-70 is `A`-`F`, 97-102 is `a`-`f`). -/
def hexDigitVal (c : Char) : Option ℕ :=
  if 48 ≤ c.toNat ∧ c.toNat ≤ 57 then some (c.toNat - 48)
  else if 65 ≤ c.toNat ∧ c.toNat ≤ 70 then some (c.toNat - 65 + 10)
  else if 97 ≤ c.toNat ∧ c.toNat ≤ 102 then some (c.toNat - 97 + 10)
  else none

/-- Numeric value of a hex digit string; `none` if some character is not a
hex digit (Python `bytes.fromhex` raises `ValueError`). -/
def hexValue : List Char → Option ℕ
  | [] => some 0
  | c :: rest =>
    match hexDigitVal c, hexValue rest with
    | some d, some n => some (d * 16 ^ rest.length + n)
    | _, _ => none

/-- Python `str.split(".")`: split on every dot. -/
def splitOnDot : List Char → List (List Char)
  | [] => [[]]
  | c :: rest =>
    let r := splitOnDot rest
    if c = '.' then [] :: r
    else (c :: r.headD []) :: r.tail

/-- Left-pad with `'0'` to length `n` (Python format spec `{:>0n}`). -/
def padLeftZeros (l : List Char) (n : ℕ) : List Char :=
  List.replicate (n - l.length) '0' ++ l

/-- Right-pad with `'0'` to length `n` (Python format spec `{:<0n}`). -/
def padRightZeros (l : List Char) (n : ℕ) : List Char :=
  l ++ List.replicate (n - l.length) '0'

/-- Value of a run of decimal digits; `none` on a non-digit. -/
def decValue : List Char → Option ℕ
  | [] => some 0
  | c :: rest =>
    match decDigitVal c, decValue rest with
    | some d, some n => some (d * 10 ^ rest.length + n)
    | _, _ => none

/-- Python `float(...)` restricted to the token shapes `-?\d+(\.\d+)?` that
the tokenizer produces; `none` models `ValueError` on any other string. -/
def parseDecimal (num : List Char) : Option ℚ :=
  let (neg, body) := match num with
    | '-' :: rest => (true, rest)
    | _ => (false, num)
  let parts := splitOnDot body
  match parts with
  | [ip] =>
    match ip, decValue ip with
    | _ :: _, some n => some (if neg then -(n : ℚ) else (n : ℚ))
    | _, _ => none
  | [ip, fp] =>
    match ip, fp, decValue ip, decValue fp with
    | _ :: _, _ :: _, some n, some f =>
      let v : ℚ := (n : ℚ) + (f : ℚ) / (10 : ℚ) ^ fp.length
      some (if neg then -v else v)
    | _, _, _, _ => none
  | _ => none

/-- edge.py `parse_number`. The hex branch splits on `.`, pads the integer
part left to 6 and the fraction right to 2 hex digits, reads the digits as a
big-endian two's-complement signed integer (4 bytes for the grammar's token
shapes), and divides by 256 and then by 20; the decimal branch divides the
decimal value by 20. `none` models a Python exception. -/
def parse_number (num : List Char) : Option ℚ :=
  match num with
  | '#' :: rest =>
    match splitOnDot rest with
    | p0 :: p1 :: _ =>
      let hexNum := padLeftZeros p0 6 ++ padRightZeros p1 2
      if hexNum.length % 2 = 0 then
        match hexValue hexNum with
        | some n =>
          let nBytes := hexNum.length / 2
          let signed : ℤ :=
            if n < 2 ^ (8 * nBytes - 1) then (n : ℤ) else (n : ℤ) - 2 ^ (8 * nBytes)
          some (((signed : ℚ) / 256) / 20)
        | none => none
      else none
    | _ => none
  | _ =>
    match parseDecimal num with
    | some v => some (v / 20)
    | none => none

/-- Membership in the command-marker character class `[!|/[\]]`. -/
def isCmdChar (c : Char) : Bool :=
  c = '!' || c = '|' || c = '/' || c = '[' || c = ']'

/-- Membership in `\d`. -/
def isDigitChar (c : Char) : Bool := '0' ≤ c && c ≤ '9'

/-- Membership in the hex-literal character class `[A-Z0-9]`. -/
def isHexClassChar (c : Char) : Bool := isDigitChar c || ('A' ≤ c && c ≤ 'Z')

/-- Longest run of characters satisfying `p`, with the rest. -/
def spanList (p : Char → Bool) : List Char → List Char × List Char
  | [] => ([], [])
  | c :: rest =>
    if p c then
      let (run, rem) := spanList p rest
      (c :: run, rem)
    else ([], c :: rest)

/-- Attempt the decimal alternative `(?<!S)-?\d+(?:\.\d+)?` at the current
position (`prev` is the character before it, for the lookbehind). -/
def matchDecimal (prev : Option Char) (l : List Char) :
    Option (List Char × List Char) :=
  if prev = some 'S' then none
  else
    let (sign, afterSign) := match l with
      | '-' :: rest => (['-'], rest)
      | _ => ([], l)
    let (digits, rem) := spanList isDigitChar afterSign
    match digits with
    | [] => none
    | _ :: _ =>
      match rem with
      | '.' :: rem' =>
        let (frac, rem'') := spanList isDigitChar rem'
        match frac with
        | [] => some (sign ++ digits, rem)
        | _ :: _ => some (sign ++ digits ++ '.' :: frac, rem'')
      | _ => some (sign ++ digits, rem)

/-- Attempt the hex alternative `#[A-Z0-9]+\.[A-Z0-9]+` at the current
position. -/
def matchHex (l : List Char) : Option (List Char × List Char) :=
  match l with
  | '#' :: rest =>
    let (ip, rem) := spanList isHexClassChar rest
    match ip, rem with
    | _ :: _, '.' :: rem' =>
      let (fp, rem'') := spanList isHexClassChar rem'
      match fp with
      | [] => none
      | _ :: _ => some ('#' :: ip ++ '.' :: fp, rem'')
    | _, _ => none
  | _ => none

/-- edge.py `EDGE_TOKENIZER.findall`: scan left to right; at each position try
a command marker, then a decimal number (with the `(?<!S)` lookbehind), then a
hex number; on failure advance one character. `prev` is the previous character
(for the lookbehind assertion). Defined on fuel `n ≥ length` for termination;
every match consumes at least one character. -/
def tokenizeAux : ℕ → Option Char → List Char → List (List Char)
  | 0, _, _ => []
  | _ + 1, _, [] => []
  | fuel + 1, prev, c :: rest =>
    if isCmdChar c then [c] :: tokenizeAux fuel (some c) rest
    else
      match matchDecimal prev (c :: rest) with
      | some (tok, rem) => tok :: tokenizeAux fuel tok.getLast? rem
      | none =>
        match matchHex (c :: rest) with
        | some (tok, rem) => tok :: tokenizeAux fuel tok.getLast? rem
        | none => tokenizeAux fuel (some c) rest

/-- Tokenize an edge-format string, as `EDGE_TOKENIZER.findall(edges)`. -/
def tokenize (l : List Char) : List (List Char) :=
  tokenizeAux l.length none l

/-- An entry of a point list: a plain point, or a control point (Python marks
control points by wrapping them in a 1-tuple). -/
inductive Entry : Type
  | pt : ℚ × ℚ → Entry
  | ctrl : ℚ × ℚ → Entry
deriving DecidableEq

/-- Exceptions inside the parse loop: `stopIter` for an exhausted token
stream, `valueErr` for `parse_number` failing. -/
inductive PErr : Type
  | stopIter
  | valueErr
deriving DecidableEq

/-- The inner `next_point` helper: consume two tokens and parse them. -/
def nextPoint (toks : List (List Char)) :
    Except PErr ((ℚ × ℚ) × List (List Char)) :=
  match toks with
  | [] => .error .stopIter
  | tx :: rest =>
    match parse_number tx with
    | none => .error .valueErr
    | some x =>
      match rest with
      | [] => .error .stopIter
      | ty :: rest' =>
        match parse_number ty with
        | none => .error .valueErr
        | some y => .ok ((x, y), rest')

/-- One yielded value of `edge_format_to_point_lists`: a point list and its
accumulated bounding box. -/
abbrev Yield := List Entry × Option BBox

/-- The main loop of edge.py `edge_format_to_point_lists`. Faithful details:
a moveto to a different point yields the accumulated list and resets the
bounding box but does NOT reset `point_list`; a lineto appends both the
current and the target point; any token that is neither `!` nor `|`/`/` is
treated as a quadto marker; `StopIteration` while reading a command or its
points is caught and produces the final yield; an unparseable number
(`ValueError`) propagates as an error. Fuel ≥ number of tokens suffices since
every iteration consumes the command token. -/
def edgeLoop : ℕ → List (List Char) → List Entry → Option BBox → ℚ × ℚ →
    Except Unit (List Yield)
  | 0, _, _, _, _ => .error ()
  | _ + 1, [], pl, bb, _ => .ok [(pl, bb)]
  | fuel + 1, cmd :: rest, pl, bb, prev =>
    match nextPoint rest with
    | .error .stopIter => .ok [(pl, bb)]
    | .error .valueErr => .error ()
    | .ok (curr, rest') =>
      if cmd = ['!'] then
        if curr ≠ prev then
          match edgeLoop fuel rest' pl none curr with
          | .ok ys => .ok ((pl, bb) :: ys)
          | .error e => .error e
        else
          edgeLoop fuel rest' pl bb prev
      else if cmd = ['|'] ∨ cmd = ['/'] then
        edgeLoop fuel rest' (pl ++ [.pt prev, .pt curr])
          (Util.merge_bounding_boxes bb (some (line_bounding_box prev curr))) curr
      else
        match nextPoint rest' with
        | .error .stopIter => .ok [(pl, bb)]
        | .error .valueErr => .error ()
        | .ok (endPt, rest'') =>
          edgeLoop fuel rest'' (pl ++ [.pt prev, .ctrl curr, .pt endPt])
            (Util.merge_bounding_boxes bb
              (some (quadratic_bounding_box prev curr endPt))) endPt

/-- edge.py `edge_format_to_point_lists`, collecting all yields. Errors:
an empty token stream (the `next` in the assert raises), a first token other
than `!` (the assert fails), or a failure while reading the initial point
(outside the `try`). -/
def edge_format_to_point_lists (s : List Char) : Except Unit (List Yield) :=
  match tokenize s with
  | [] => .error ()
  | t :: rest =>
    if t = ['!'] then
      match nextPoint rest with
      | .error _ => .error ()
      | .ok (p0, rest') => edgeLoop (rest'.length + 1) rest' [] none p0
    else .error ()

/-- Analysis device (not part of the embedded code): mirrors `edgeLoop`'s
token consumption and records whether every point-position token that is
fully present parses as a number. The stream ending anywhere inside a
command (`StopIteration`) counts as OK, matching the loop's `except`
handler; only an unparseable token in point position (`ValueError`) is
flagged. Thus `tokensOk = true` covers every truncation of an otherwise
valid command stream. -/
def tokensOk : ℕ → List (List Char) → Bool
  | 0, _ => false
  | _ + 1, [] => true
  | fuel + 1, c :: rest =>
    match nextPoint rest with
    | .error .stopIter => true
    | .error .valueErr => false
    | .ok (_, rest') =>
      if c = ['!'] ∨ c = ['|'] ∨ c = ['/'] then tokensOk fuel rest'
      else
        match nextPoint rest' with
        | .error .stopIter => true
        | .error .valueErr => false
        | .ok (_, rest'') => tokensOk fuel rest''

end EdgePy

namespace ShapePy

open EdgePy (Entry)

/-- Python `" ".join`. -/
def joinSpace : List String → String
  | [] => ""
  | [s] => s
  | s :: t :: rest => s ++ " " ++ joinSpace (t :: rest)

/-- The f-string `f"\x7bpt[0]\x7d \x7bpt[1]\x7d"` of `append_point` on a
coordinate pair. -/
def coordStr (p : ℚ × ℚ) : String := toString p.1 ++ " " ++ toString p.2

/-- Token loop of shape.py `path_to_svg_format`, after the leading `M` and
first point. `last` is `last_command`. A trailing control entry hits
`StopIteration` inside the `try`, which is caught (the dangling control's
coordinates are still emitted); a control entry followed by another control
entry indexes a 1-tuple out of range (`IndexError`), modelled as an error. -/
def pathSvgToks : List Entry → String → Except Unit (List String)
  | [], _ => .ok []
  | .pt p :: rest, last =>
    match pathSvgToks rest "L" with
    | .ok ts => .ok ((if "L" = last then [] else ["L"]) ++ coordStr p :: ts)
    | .error e => .error e
  | .ctrl c :: rest, last =>
    let cmd := if "Q" = last then [] else ["Q"]
    match rest with
    | [] => .ok (cmd ++ [coordStr c])
    | .pt q :: rest' =>
      match pathSvgToks rest' "Q" with
      | .ok ts => .ok (cmd ++ coordStr c :: coordStr q :: ts)
      | .error e => .error e
    | .ctrl _ :: _ => .error ()

/-- shape.py `path_to_svg_format` as the emitted token list: a leading `"M"`
and the first point, then the loop. An empty list raises `StopIteration` at
the first `next` (outside the `try`); a leading control entry indexes a
1-tuple out of range. -/
def path_to_svg_toks (pl : List Entry) : Except Unit (List String) :=
  match pl with
  | [] => .error ()
  | .ctrl _ :: _ => .error ()
  | .pt p :: rest =>
    match pathSvgToks rest "M" with
    | .ok ts => .ok ("M" :: coordStr p :: ts)
    | .error e => .error e

/-- shape.py `path_to_svg_format`: the tokens joined with `" "`. -/
def path_to_svg_format (pl : List Entry) : Except Unit String :=
  match path_to_svg_toks pl with
  | .ok ts => .ok (joinSpace ts)
  | .error e => .error e

end ShapePy

namespace PathGraph

variable {α : Type} [DecidableEq α]

/-- Source of a path vertex: `path[0]` in shape.py `PathGraph.add`. -/
def src (p : List α) : Option α := p.head?

/-- Sink of a path vertex: `path[-1]` in shape.py `PathGraph.add`. -/
def snk (p : List α) : Option α := p.getLast?

/-- The adjacency `self.paths` of a `PathGraph` holding the vertex set `vs`:
after all `add` calls, `paths[a]` is exactly the set of vertices `b` with
`a` ending where `b` starts (including `a` itself when it is a loop). -/
def succs (vs : List (List α)) (a : List α) : List (List α) :=
  vs.filter (fun b => decide (snk a = src b))

/-- Lookup in an association list (Python `dict` access / `in` test). -/
def alookup : List (List α × List α) → List α → Option (List α)
  | [], _ => none
  | (k, w) :: rest, x => if k = x then some w else alookup rest x

/-- The `while pending` search loop of shape.py `PathGraph.get_cycle`.
`pick` chooses which element of `pending` the Python `set.pop` returns (any
function; theorems quantify over all of them). Elements entering `pending`
are exactly those entering `parents`, so `pending` never holds duplicates and
the list faithfully models the Python set. Fuel bounds the iteration count;
`2 * vs.length + 1` always suffices since each vertex is parented at most
once and each iteration pops one element. -/
def getCycleLoop (vs : List (List α)) (v : List α) (pick : List (List α) → ℕ) :
    ℕ → List (List α × List α) → List (List α) → List (List α × List α)
  | 0, parents, _ => parents
  | fuel + 1, parents, pending =>
    match pending with
    | [] => parents
    | _ :: _ =>
      let i := pick pending % pending.length
      let curr := pending.getD i []
      if curr = v then parents
      else
        let kids := (succs vs curr).filter (fun c => (alookup parents c).isNone)
        getCycleLoop vs v pick fuel (parents ++ kids.map (fun c => (c, curr)))
          (pending.eraseIdx i ++ kids)

/-- The parent-pointer walk at the end of `get_cycle`: `result = [v]`, then
prepend `parents[v]`, `parents[parents[v]]`, ... until `v` is reached again.
The `none` branch is unreachable when the parent map was built by the search
(every parent is itself parented or is `v`). -/
def walkParents (parents : List (List α × List α)) (v : List α) :
    ℕ → List α → List (List α) → List (List α)
  | 0, _, acc => acc
  | fuel + 1, nxt, acc =>
    if nxt = v then acc
    else
      match alookup parents nxt with
      | none => acc
      | some p => walkParents parents v fuel p (nxt :: acc)

/-- Rebuild the cycle from the search's parent map (`if v not in parents:
return []` and the walk). -/
def reconstruct (parents : List (List α × List α)) (v : List α) :
    List (List α) :=
  match alookup parents v with
  | none => []
  | some p => walkParents parents v (parents.length + 1) p [v]

/-- shape.py `PathGraph.get_cycle` on the graph with vertex set `vs`, rooted
at `v`: seed `parents`/`pending` with the successors of `v`, run the search
loop, then rebuild the discovered path from `v` back to itself. -/
def get_cycle (vs : List (List α)) (v : List α) (pick : List (List α) → ℕ) :
    List (List α) :=
  let parents0 := (succs vs v).map (fun c => (c, v))
  reconstruct (getCycleLoop vs v pick (2 * vs.length + 1) parents0 (succs vs v)) v

/-- The `for v in cycle: if v in pending: pending.remove(v)` step of
`covering_cycles`. -/
def removeCovered (pending cyc : List (List α)) : List (List α) :=
  pending.filter (fun x => decide (x ∉ cyc))

/-- The `while pending` loop of shape.py `PathGraph.covering_cycles`.
`pickC` chooses the popped start; `pickG n` is the chooser handed to the
`n`-th (by remaining fuel) `get_cycle` call. Returns the yielded cycles and
the list of starts silently dropped because `get_cycle` found no cycle.
Fuel `vs.length` suffices: every iteration removes at least the start. -/
def coveringLoop (vs : List (List α)) (pickC : List (List α) → ℕ)
    (pickG : ℕ → List (List α) → ℕ) :
    ℕ → List (List α) → List (List (List α)) × List (List α)
  | 0, pending => ([], pending)
  | fuel + 1, pending =>
    match pending with
    | [] => ([], [])
    | _ :: _ =>
      let i := pickC pending % pending.length
      let start := pending.getD i []
      let cyc := get_cycle vs start (pickG fuel)
      if cyc = [] then
        let r := coveringLoop vs pickC pickG fuel (pending.eraseIdx i)
        (r.1, start :: r.2)
      else
        let r := coveringLoop vs pickC pickG fuel
          (removeCovered (pending.eraseIdx i) cyc)
        (cyc :: r.1, r.2)

/-- shape.py `PathGraph.covering_cycles` on vertex set `vs` (the `pending`
set starts as a copy of the vertices). First component: the yielded cycles;
second component: the vertices popped as roots but never covered by any
cycle (the code skips these silently -- they are what an
`IncompleteShapeCoverage` warning would report). -/
def covering_cycles (vs : List (List α)) (pickC : List (List α) → ℕ)
    (pickG : ℕ → List (List α) → ℕ) : List (List (List α)) × List (List α) :=
  coveringLoop vs pickC pickG vs.length vs

/-- All possible results of the `get_cycle` search loop over every choice of
`set.pop` order (used to prove properties for every chooser at once). -/
def getCycleLoopAll (vs : List (List α)) (v : List α) :
    ℕ → List (List α × List α) → List (List α) →
    List (List (List α × List α))
  | 0, parents, _ => [parents]
  | fuel + 1, parents, pending =>
    match pending with
    | [] => [parents]
    | _ :: _ =>
      (((List.range pending.length).map (fun i =>
        let curr := pending.getD i []
        if curr = v then [parents]
        else
          let kids := (succs vs curr).filter (fun c => (alookup parents c).isNone)
          getCycleLoopAll vs v fuel (parents ++ kids.map (fun c => (c, curr)))
            (pending.eraseIdx i ++ kids))).flatten).dedup

/-- All possible results of `get_cycle` over every `set.pop` order. -/
def getCycleAll (vs : List (List α)) (v : List α) : List (List (List α)) :=
  (((getCycleLoopAll vs v (2 * vs.length + 1)
      ((succs vs v).map (fun c => (c, v))) (succs vs v)).map
    (fun parents => reconstruct parents v))).dedup

/-- All possible results of the `covering_cycles` loop over every `set.pop`
order, both for the pending-roots set and inside each `get_cycle` call. -/
def coveringLoopAll (vs : List (List α)) :
    ℕ → List (List α) → List (List (List (List α)) × List (List α))
  | 0, pending => [([], pending)]
  | fuel + 1, pending =>
    match pending with
    | [] => [([], [])]
    | _ :: _ =>
      let branches := (List.range pending.length).map (fun i =>
        let start := pending.getD i []
        let perCycle := (getCycleAll vs start).map (fun cyc =>
          if cyc = [] then
            (coveringLoopAll vs fuel (pending.eraseIdx i)).map
              (fun r => (r.1, start :: r.2))
          else
            (coveringLoopAll vs fuel
                (removeCovered (pending.eraseIdx i) cyc)).map
              (fun r => (cyc :: r.1, r.2)))
        perCycle.flatten)
      branches.flatten.dedup

/-- All possible results of `covering_cycles` over every `set.pop` order. -/
def coveringCyclesAll (vs : List (List α)) :
    List (List (List (List α)) × List (List α)) :=
  coveringLoopAll vs vs.length vs

/-- Hypothesis of the cycle-coverage claim: the vertex set decomposes into
one or more disjoint simple cycles under sink-equals-source adjacency: all
paths are nonempty, their sources are pairwise distinct and their sinks are
pairwise distinct (simple cycles sharing no points), and every sink continues
into some source (no dangling segments). -/
def SimpleCycles (vs : List (List α)) : Prop :=
  (∀ p ∈ vs, p ≠ []) ∧ (vs.map src).Nodup ∧ (vs.map snk).Nodup ∧
    ∀ a ∈ vs, ∃ b ∈ vs, snk a = src b

/-- The successor of `a` in the graph: the first vertex whose source equals
the sink of `a` (unique under `SimpleCycles`). Analysis device for the
search, not part of the embedded code. -/
def nextF (vs : List (List α)) (a : List α) : List α :=
  (vs.find? (fun b => decide (snk a = src b))).getD []

/-- Parent map of the `get_cycle` search after discovering the first `k`
successors along the orbit of `v`. -/
def orbAssoc (f : List α → List α) (v : List α) (k : ℕ) :
    List (List α × List α) :=
  (List.range k).map (fun j => (f^[j + 1] v, f^[j] v))

/-- The orbit of `v`, listed the way the search's parent walk returns it:
`[f v, f² v, ..., f^m v]` (the last entry being `v` itself when `m` is the
period). -/
def orbitList (f : List α → List α) (v : List α) (m : ℕ) : List (List α) :=
  (List.range m).map (fun j => f^[j + 1] v)

end PathGraph

namespace ShapePy

/-- One item yielded by `xfl_domshape_to_edges`: a segment path plus the
`fillStyle0`, `fillStyle1` and `strokeStyle` ids of its `<Edge>`. -/
structure Piece (α : Type) where
  path : List α
  fill_left : Option String
  fill_right : Option String
  stroke : Option String
deriving DecidableEq

variable {α : Type} [DecidableEq α]

/-- Python truthiness of an optional style id (`None` and `""` are falsy). -/
def truthy : Option String → Bool
  | none => false
  | some s => decide (s ≠ "")

/-- shape.py `xfl_domshape_to_visible_edges`, as a function of the pieces the
missing-in-this-snapshot `xfl_domshape_to_edges` yields. Faithful detail: the
function computes demoted local ids but then yields the ORIGINAL
`shape_piece` tuple, so it only filters pieces out (when every demoted id is
falsy) and never actually replaces an unknown id by `None`. -/
def xfl_domshape_to_visible_edges (pieces : List (Piece α))
    (known_fills known_strokes : List String) : List (Piece α) :=
  pieces.filter (fun p =>
    let fl := match p.fill_left with
      | some s => if s ∈ known_fills then some s else none
      | none => none
    let fr := match p.fill_right with
      | some s => if s ∈ known_fills then some s else none
      | none => none
    let st := match p.stroke with
      | some s => if s ∈ known_strokes then some s else none
      | none => none
    truthy fl || truthy fr || truthy st)

/-- The fill-side assignments made by `ShapeGraph.add_edge` over a list of
pieces: `(fill_left, path)` when `fill_left` is not `None`, and
`(fill_right, reversed path)` when `fill_right` is not `None`. -/
def fillAssignments (pieces : List (Piece α)) : List (String × List α) :=
  (pieces.map (fun p =>
    (match p.fill_left with | some s => [(s, p.path)] | none => []) ++
    (match p.fill_right with | some s => [(s, p.path.reverse)] | none => []))).flatten

/-- The vertex set of the `PathGraph` built for one fill id (`vertices` is a
Python set, hence deduplicated). -/
def fillVertices (assignments : List (String × List α)) (id : String) :
    List (List α) :=
  (assignments.filterMap (fun q => if q.1 = id then some q.2 else none)).dedup

/-- shape.py `ShapeGraph.get_fills`: for each fill id, run `covering_cycles`
on its `PathGraph` and concatenate each cycle's paths into one point list. -/
def getFills (assignments : List (String × List α))
    (pickC : List (List α) → ℕ) (pickG : ℕ → List (List α) → ℕ) :
    List (String × List (List α)) :=
  ((assignments.map Prod.fst).dedup).map (fun id =>
    (id, ((PathGraph.covering_cycles (fillVertices assignments id)
        pickC pickG).1).map (fun cyc => cyc.flatten)))

/-- The fill loop of shape.py `shape_graph_to_svg`: skip fill ids whose path
list is empty; otherwise `require_fill` looks the id up in `fill_styles`,
raising `KeyError` (modelled as `.error id`) when it is absent. Returns the
ids actually emitted. -/
def svgFillsRun (fills : List (String × List (List α)))
    (fill_styles : List String) : Except String (List String) :=
  match fills with
  | [] => .ok []
  | (id, paths) :: rest =>
    if paths = [] then svgFillsRun rest fill_styles
    else if id ∈ fill_styles then
      match svgFillsRun rest fill_styles with
      | .ok ids => .ok (id :: ids)
      | .error e => .error e
    else .error id

end ShapePy

namespace Util

/-- Per-axis quadratic Bézier value `B(t)` with endpoint values `a`, `c` and
control value `b` (one component of `quadratic_bezier`). -/
def bezAxis (a b c t : ℚ) : ℚ :=
  (1 - t) * ((1 - t) * a + t * b) + t * ((1 - t) * b + t * c)

/-- Modelled from the spec: per-axis bounding interval = min/max over the two
endpoint values and the curve value at the critical parameter
`t* = (a - b) / (a - 2b + c)` whenever `t*` lies strictly in `(0,1)` (a zero
denominator meaning no interior extremum). Stated from the claim's words, to
be compared with the source-derived `quadratic_bounding_box`. -/
def axisMinMaxSpec (a b c : ℚ) : ℚ × ℚ :=
  if a - 2 * b + c = 0 then (min a c, max a c)
  else
    if 0 < (a - b) / (a - 2 * b + c) ∧ (a - b) / (a - 2 * b + c) < 1 then
      (min (min a c) (bezAxis a b c ((a - b) / (a - 2 * b + c))),
       max (max a c) (bezAxis a b c ((a - b) / (a - 2 * b + c))))
    else (min a c, max a c)

/-- Modelled from the spec: the bounding box assembled from the two per-axis
intervals of `axisMinMaxSpec`. -/
def quadratic_bounding_box_spec (p1 control p2 : ℚ × ℚ) : BBox :=
  ((axisMinMaxSpec p1.1 control.1 p2.1).1,
   (axisMinMaxSpec p1.2 control.2 p2.2).1,
   (axisMinMaxSpec p1.1 control.1 p2.1).2,
   (axisMinMaxSpec p1.2 control.2 p2.2).2)

/-- The per-axis candidate value the code uses for its own axis. -/
def axisCand (a b c : ℚ) : ℚ :=
  if a - 2 * b + c = 0 then a
  else
    if 0 < (a - b) / (a - 2 * b + c) ∧ (a - b) / (a - 2 * b + c) < 1 then
      bezAxis a b c ((a - b) / (a - 2 * b + c))
    else a

end Util

/-! ## Lemmas about the cycle-cover search -/

namespace PathGraph

variable {α : Type} [DecidableEq α]

lemma mem_flatten_range_map {β : Type} (f : ℕ → List β) (n i : ℕ) (h : i < n)
    (x : β) (hx : x ∈ f i) : x ∈ ((List.range n).map f).flatten := by
  rw [List.mem_flatten]
  exact ⟨f i, List.mem_map_of_mem f (List.mem_range.mpr h), hx⟩

lemma getCycleLoop_mem_all (vs : List (List α)) (v : List α)
    (pick : List (List α) → ℕ) :
    ∀ fuel parents pending,
      getCycleLoop vs v pick fuel parents pending ∈
        getCycleLoopAll vs v fuel parents pending := by
  intro fuel
  induction fuel with
  | zero => intro parents pending; simp [getCycleLoop, getCycleLoopAll]
  | succ n ih =>
    intro parents pending
    match pending with
    | [] => simp [getCycleLoop, getCycleLoopAll]
    | p0 :: ps =>
      have hlen : 0 < (p0 :: ps).length := by simp
      simp only [getCycleLoop, getCycleLoopAll, List.mem_dedup]
      apply mem_flatten_range_map _ _ (pick (p0 :: ps) % (p0 :: ps).length)
        (Nat.mod_lt _ hlen)
      split
      next hv => simp [hv]
      next _ => exact ih _ _

lemma get_cycle_mem_all (vs : List (List α)) (v : List α)
    (pick : List (List α) → ℕ) :
    get_cycle vs v pick ∈ getCycleAll vs v := by
  unfold get_cycle getCycleAll
  rw [List.mem_dedup]
  exact List.mem_map_of_mem _ (getCycleLoop_mem_all vs v pick _ _ _)

lemma coveringLoop_mem_all (vs : List (List α)) (pickC : List (List α) → ℕ)
    (pickG : ℕ → List (List α) → ℕ) :
    ∀ fuel pending,
      coveringLoop vs pickC pickG fuel pending ∈ coveringLoopAll vs fuel pending := by
  intro fuel
  induction fuel with
  | zero => intro pending; simp [coveringLoop, coveringLoopAll]
  | succ n ih =>
    intro pending
    match pending with
    | [] => simp [coveringLoop, coveringLoopAll]
    | p0 :: ps =>
      have hlen : 0 < (p0 :: ps).length := by simp
      simp only [coveringLoop, coveringLoopAll, List.mem_dedup]
      apply mem_flatten_range_map _ _ (pickC (p0 :: ps) % (p0 :: ps).length)
        (Nat.mod_lt _ hlen)
      rw [List.mem_flatten]
      refine ⟨_, List.mem_map_of_mem _
        (get_cycle_mem_all vs ((p0 :: ps).getD (pickC (p0 :: ps) % (p0 :: ps).length) []) (pickG n)), ?_⟩
      split
      next _ => exact List.mem_map_of_mem _ (ih _)
      next _ => exact List.mem_map_of_mem _ (ih _)

lemma covering_cycles_mem_all (vs : List (List α)) (pickC : List (List α) → ℕ)
    (pickG : ℕ → List (List α) → ℕ) :
    covering_cycles vs pickC pickG ∈ coveringCyclesAll vs :=
  coveringLoop_mem_all vs pickC pickG vs.length vs

end PathGraph

namespace PathGraph

variable {α : Type} [DecidableEq α]

section Structure

variable {vs : List (List α)}

lemma nodup_of_simple (h : SimpleCycles vs) : vs.Nodup :=
  h.2.1.of_map

lemma nextF_mem_and_adj (h : SimpleCycles vs) {a : List α} (ha : a ∈ vs) :
    nextF vs a ∈ vs ∧ snk a = src (nextF vs a) := by
  obtain ⟨b, hb, hab⟩ := h.2.2.2 a ha
  have hsome : (vs.find? (fun b => decide (snk a = src b))).isSome := by
    rw [List.find?_isSome]
    exact ⟨b, hb, by simpa using hab⟩
  obtain ⟨c, hc⟩ := Option.isSome_iff_exists.mp hsome
  have hcmem : c ∈ vs := List.mem_of_find?_eq_some hc
  have hcp : snk a = src c := by simpa using List.find?_some hc
  simp only [nextF, hc, Option.getD_some]
  exact ⟨hcmem, hcp⟩

lemma nextF_mem (h : SimpleCycles vs) {a : List α} (ha : a ∈ vs) :
    nextF vs a ∈ vs := (nextF_mem_and_adj h ha).1

lemma snk_eq_src_nextF (h : SimpleCycles vs) {a : List α} (ha : a ∈ vs) :
    snk a = src (nextF vs a) := (nextF_mem_and_adj h ha).2

lemma succ_unique (h : SimpleCycles vs) {b₁ b₂ : List α} (h₁ : b₁ ∈ vs)
    (h₂ : b₂ ∈ vs) (e : src b₁ = src b₂) : b₁ = b₂ :=
  List.inj_on_of_nodup_map h.2.1 h₁ h₂ e

lemma snk_unique (h : SimpleCycles vs) {b₁ b₂ : List α} (h₁ : b₁ ∈ vs)
    (h₂ : b₂ ∈ vs) (e : snk b₁ = snk b₂) : b₁ = b₂ :=
  List.inj_on_of_nodup_map h.2.2.1 h₁ h₂ e

lemma nextF_inj (h : SimpleCycles vs) {a₁ a₂ : List α} (h₁ : a₁ ∈ vs)
    (h₂ : a₂ ∈ vs) (e : nextF vs a₁ = nextF vs a₂) : a₁ = a₂ := by
  apply snk_unique h h₁ h₂
  rw [snk_eq_src_nextF h h₁, snk_eq_src_nextF h h₂, e]

lemma filter_unique {β : Type} (p : β → Bool) :
    ∀ (l : List β) (b : β), b ∈ l → p b = true →
      (∀ x ∈ l, p x = true → x = b) → l.Nodup → l.filter p = [b]
  | [], b, hb, _, _, _ => absurd hb (List.not_mem_nil b)
  | c :: rest, b, hb, hpb, huniq, hnd => by
    by_cases hc : p c = true
    · have hcb : c = b := huniq c (List.mem_cons_self c rest) hc
      subst hcb
      have hrest : rest.filter p = [] := by
        rw [List.filter_eq_nil_iff]
        intro x hx hpx
        have : x = c := huniq x (List.mem_cons_of_mem c hx) hpx
        subst this
        exact (List.nodup_cons.mp hnd).1 hx
      simp [List.filter_cons_of_pos hc, hrest]
    · have hbc : b ≠ c := fun e => hc (e ▸ hpb)
      have hbrest : b ∈ rest := by
        rcases List.mem_cons.mp hb with h | h
        · exact absurd h hbc
        · exact h
      rw [List.filter_cons_of_neg (by simpa using hc)]
      exact filter_unique p rest b hbrest hpb
        (fun x hx hpx => huniq x (List.mem_cons_of_mem c hx) hpx)
        (List.nodup_cons.mp hnd).2

lemma succs_eq_single (h : SimpleCycles vs) {a : List α} (ha : a ∈ vs) :
    succs vs a = [nextF vs a] := by
  apply filter_unique
  · exact nextF_mem h ha
  · simpa using (snk_eq_src_nextF h ha)
  · intro x hx hpx
    exact succ_unique h hx (nextF_mem h ha)
      (by rw [← (by simpa using hpx : snk a = src x), snk_eq_src_nextF h ha])
  · exact nodup_of_simple h

lemma iterate_mem (h : SimpleCycles vs) {v : List α} (hv : v ∈ vs) :
    ∀ k, (nextF vs)^[k] v ∈ vs := by
  intro k
  induction k with
  | zero => simpa using hv
  | succ n ih =>
    rw [Function.iterate_succ_apply']
    exact nextF_mem h ih

end Structure

end PathGraph

namespace PathGraph

variable {α : Type} [DecidableEq α] {vs : List (List α)}

lemma iterate_cancel (h : SimpleCycles vs) {v : List α} (hv : v ∈ vs) :
    ∀ i d, (nextF vs)^[i] v = (nextF vs)^[i + d] v → v = (nextF vs)^[d] v := by
  intro i
  induction i with
  | zero => intro d hd; simpa using hd
  | succ n ih =>
    intro d hd
    apply ih
    have h1 : (nextF vs)^[n + 1] v = nextF vs ((nextF vs)^[n] v) :=
      Function.iterate_succ_apply' _ _ _
    have h2 : (nextF vs)^[n + 1 + d] v = nextF vs ((nextF vs)^[n + d] v) := by
      rw [show n + 1 + d = (n + d) + 1 by omega]
      exact Function.iterate_succ_apply' _ _ _
    exact nextF_inj h (iterate_mem h hv n) (iterate_mem h hv (n + d))
      (by rw [← h1, ← h2, hd])

lemma exists_return (h : SimpleCycles vs) {v : List α} (hv : v ∈ vs) :
    ∃ m, 0 < m ∧ m ≤ vs.length ∧ (nextF vs)^[m] v = v := by
  classical
  have hmaps : ∀ i ∈ Finset.range (vs.length + 1),
      (nextF vs)^[i] v ∈ vs.toFinset := by
    intro i _
    rw [List.mem_toFinset]
    exact iterate_mem h hv i
  have hcard : vs.toFinset.card < (Finset.range (vs.length + 1)).card := by
    rw [Finset.card_range]
    exact Nat.lt_succ_of_le vs.toFinset_card_le
  obtain ⟨i, hi, j, hj, hij, hfij⟩ :=
    Finset.exists_ne_map_eq_of_card_lt_of_maps_to hcard hmaps
  rw [Finset.mem_range] at hi hj
  rcases Nat.lt_or_ge i j with hlt | hge
  · refine ⟨j - i, by omega, by omega, ?_⟩
    exact (iterate_cancel h hv i (j - i)
      (by rw [show i + (j - i) = j by omega]; exact hfij)).symm
  · have hlt : j < i := by omega
    refine ⟨i - j, by omega, by omega, ?_⟩
    exact (iterate_cancel h hv j (i - j)
      (by rw [show j + (i - j) = i by omega]; exact hfij.symm)).symm

lemma exists_min_return (h : SimpleCycles vs) {v : List α} (hv : v ∈ vs) :
    ∃ m, 0 < m ∧ m ≤ vs.length ∧ (nextF vs)^[m] v = v ∧
      ∀ j, 0 < j → j < m → (nextF vs)^[j] v ≠ v := by
  obtain ⟨m0, hm0, hlen0, hret0⟩ := exists_return h hv
  have hP : ∃ m, 0 < m ∧ (nextF vs)^[m] v = v := ⟨m0, hm0, hret0⟩
  classical
  let m := Nat.find hP
  have hspec := Nat.find_spec hP
  refine ⟨m, hspec.1, le_trans (Nat.find_min' hP ⟨hm0, hret0⟩) hlen0, hspec.2, ?_⟩
  intro j hj hjm hjret
  exact absurd (Nat.find_min' hP ⟨hj, hjret⟩) (by omega)

lemma orbit_distinct (h : SimpleCycles vs) {v : List α} (hv : v ∈ vs) {m : ℕ}
    (hret : (nextF vs)^[m] v = v)
    (hmin : ∀ j, 0 < j → j < m → (nextF vs)^[j] v ≠ v) :
    ∀ i j, i < j → j ≤ m → 1 ≤ i → (nextF vs)^[i] v ≠ (nextF vs)^[j] v := by
  intro i j hij hjm hi1 he
  have : v = (nextF vs)^[j - i] v :=
    iterate_cancel h hv i (j - i) (by rw [show i + (j - i) = j by omega]; exact he)
  rcases Nat.lt_or_ge (j - i) m with hlt | hge
  · exact hmin (j - i) (by omega) hlt this.symm
  · have hjm' : j = m := by omega
    have him : i = 0 := by omega
    omega

end PathGraph

namespace PathGraph

variable {α : Type} [DecidableEq α] {vs : List (List α)}

lemma alookup_eq_none_iff (l : List (List α × List α)) (x : List α) :
    alookup l x = none ↔ x ∉ l.map Prod.fst := by
  induction l with
  | nil => simp [alookup]
  | cons kv rest ih =>
    obtain ⟨k, w⟩ := kv
    by_cases hk : k = x
    · subst hk
      simp [alookup]
    · simp [alookup, hk, ih, Ne.symm hk]

lemma alookup_of_mem (l : List (List α × List α)) {k w : List α}
    (hnd : (l.map Prod.fst).Nodup) (h : (k, w) ∈ l) : alookup l k = some w := by
  induction l with
  | nil => exact absurd h (List.not_mem_nil _)
  | cons kv rest ih =>
    obtain ⟨k', w'⟩ := kv
    rcases List.mem_cons.mp h with he | hrest
    · obtain ⟨rfl, rfl⟩ := Prod.mk.injEq .. ▸ he
      · simp [alookup]
    · have hk : k' ≠ k := by
        rintro rfl
        exact (List.nodup_cons.mp (by simpa using hnd)).1
          (List.mem_map_of_mem Prod.fst hrest)
      simp only [alookup, if_neg hk]
      exact ih (List.nodup_cons.mp (by simpa using hnd)).2 hrest

lemma orbAssoc_keys (f : List α → List α) (v : List α) (k : ℕ) :
    (orbAssoc f v k).map Prod.fst = (List.range k).map (fun j => f^[j + 1] v) := by
  rw [orbAssoc, List.map_map]
  rfl

lemma orbAssoc_succ (f : List α → List α) (v : List α) (k : ℕ) :
    orbAssoc f v (k + 1) = orbAssoc f v k ++ [(f^[k + 1] v, f^[k] v)] := by
  simp [orbAssoc, List.range_succ]

end PathGraph

namespace PathGraph

variable {α : Type} [DecidableEq α] {vs : List (List α)}

lemma getCycleLoop_sim (h : SimpleCycles vs) {v : List α} (hv : v ∈ vs)
    {m : ℕ} (hret : (nextF vs)^[m] v = v)
    (hmin : ∀ j, 0 < j → j < m → (nextF vs)^[j] v ≠ v)
    (pick : List (List α) → ℕ) :
    ∀ fuel i, i + 1 ≤ m → m - (i + 1) < fuel →
      getCycleLoop vs v pick fuel (orbAssoc (nextF vs) v (i + 1))
        [(nextF vs)^[i + 1] v] = orbAssoc (nextF vs) v m := by
  intro fuel
  induction fuel with
  | zero => intro i h1 h2; omega
  | succ n ih =>
    intro i h1 h2
    simp only [getCycleLoop, List.length_cons, List.length_nil, Nat.zero_add,
      Nat.mod_one, List.getD_cons_zero, List.eraseIdx_cons_zero]
    by_cases hw : (nextF vs)^[i + 1] v = v
    · rw [if_pos hw]
      have him : i + 1 = m := by
        rcases Nat.lt_or_ge (i + 1) m with hlt | _
        · exact absurd hw (hmin (i + 1) (by omega) hlt)
        · omega
      rw [him]
    · rw [if_neg hw]
      have hlt : i + 1 < m := by
        rcases Nat.lt_or_ge (i + 1) m with hlt | hge
        · exact hlt
        · exact absurd (by rw [show i + 1 = m by omega]; exact hret) hw
      have hmem1 : (nextF vs)^[i + 1] v ∈ vs := iterate_mem h hv (i + 1)
      have hstep : (nextF vs)^[i + 2] v = nextF vs ((nextF vs)^[i + 1] v) := by
        rw [show i + 2 = (i + 1) + 1 by omega, Function.iterate_succ_apply']
      have hsucc : succs vs ((nextF vs)^[i + 1] v) = [(nextF vs)^[i + 2] v] := by
        rw [succs_eq_single h hmem1, hstep]
      have hnotin : alookup (orbAssoc (nextF vs) v (i + 1))
          ((nextF vs)^[i + 2] v) = none := by
        rw [alookup_eq_none_iff, orbAssoc_keys]
        intro hmem
        obtain ⟨j, hj, hje⟩ := List.mem_map.mp hmem
        rw [List.mem_range] at hj
        exact orbit_distinct h hv hret hmin (j + 1) (i + 2)
          (by omega) (by omega) (by omega) hje
      rw [hsucc]
      simp only [List.filter_cons, hnotin, Option.isNone_none, if_true,
        List.filter_nil, List.map_cons, List.map_nil, List.nil_append]
      have hpar : orbAssoc (nextF vs) v (i + 2) = orbAssoc (nextF vs) v (i + 1) ++
          [((nextF vs)^[i + 2] v, (nextF vs)^[i + 1] v)] := by
        rw [show i + 2 = (i + 1) + 1 by omega]
        exact orbAssoc_succ _ _ _
      rw [← hpar]
      have hih := ih (i + 1) (by omega) (by omega)
      rw [show (i + 1) + 1 = i + 2 by omega] at hih
      exact hih

end PathGraph

namespace PathGraph

variable {α : Type} [DecidableEq α] {vs : List (List α)}

lemma tail_zero_eq_orbitList (f : List α → List α) (v : List α) (m : ℕ)
    (hm : 0 < m) (hret : f^[m] v = v) :
    (List.range' 1 (m - 1)).map (fun k => f^[k] v) ++ [v] = orbitList f v m := by
  rw [orbitList, show m = (m - 1) + 1 by omega, List.range_succ, List.map_append]
  congr 1
  · rw [List.range'_eq_map_range, List.map_map]
    apply List.map_congr_left
    intro i _
    simp [Nat.add_comm]
  · simp only [List.map_cons, List.map_nil]
    rw [show (m - 1) + 1 = m by omega, hret]

lemma orbAssoc_keys_nodup (h : SimpleCycles vs) {v : List α} (hv : v ∈ vs)
    {m : ℕ} (hret : (nextF vs)^[m] v = v)
    (hmin : ∀ j, 0 < j → j < m → (nextF vs)^[j] v ≠ v) :
    ((orbAssoc (nextF vs) v m).map Prod.fst).Nodup := by
  rw [orbAssoc_keys]
  rw [List.nodup_map_iff_inj_on (List.nodup_range m)]
  intro x hx y hy hxy
  rw [List.mem_range] at hx hy
  by_contra hne
  rcases Nat.lt_or_ge x y with hlt | hge
  · exact orbit_distinct h hv hret hmin (x + 1) (y + 1)
      (by omega) (by omega) (by omega) hxy
  · have hlt : y < x := by omega
    exact orbit_distinct h hv hret hmin (y + 1) (x + 1)
      (by omega) (by omega) (by omega) hxy.symm

lemma walkParents_orb (h : SimpleCycles vs) {v : List α} (hv : v ∈ vs)
    {m : ℕ} (hret : (nextF vs)^[m] v = v)
    (hmin : ∀ j, 0 < j → j < m → (nextF vs)^[j] v ≠ v) :
    ∀ j, j < m → ∀ fuel, j < fuel →
      walkParents (orbAssoc (nextF vs) v m) v fuel ((nextF vs)^[j] v)
        ((List.range' (j + 1) (m - 1 - j)).map (fun k => (nextF vs)^[k] v)
          ++ [v]) = orbitList (nextF vs) v m := by
  intro j
  induction j with
  | zero =>
    intro _ fuel hfuel
    match fuel, hfuel with
    | f + 1, _ =>
      rw [walkParents]
      rw [if_pos (Function.iterate_zero_apply _ _)]
      simpa using tail_zero_eq_orbitList (nextF vs) v m (by omega) hret
  | succ j ih =>
    intro hjm fuel hfuel
    match fuel, hfuel with
    | f + 1, hf =>
      rw [walkParents]
      rw [if_neg (hmin (j + 1) (by omega) hjm)]
      have halk : alookup (orbAssoc (nextF vs) v m) ((nextF vs)^[j + 1] v) =
          some ((nextF vs)^[j] v) := by
        apply alookup_of_mem _ (orbAssoc_keys_nodup h hv hret hmin)
        rw [orbAssoc]
        exact List.mem_map.mpr ⟨j, List.mem_range.mpr (by omega), rfl⟩
      rw [halk]
      have hacc : ((nextF vs)^[j + 1] v) ::
          ((List.range' (j + 1 + 1) (m - 1 - (j + 1))).map
            (fun k => (nextF vs)^[k] v) ++ [v]) =
          (List.range' (j + 1) (m - 1 - j)).map (fun k => (nextF vs)^[k] v)
            ++ [v] := by
        rw [show m - 1 - j = (m - 1 - (j + 1)) + 1 by omega, List.range'_succ]
        simp
      rw [hacc]
      exact ih (by omega) f (by omega)

end PathGraph

namespace PathGraph

variable {α : Type} [DecidableEq α] {vs : List (List α)}

lemma get_cycle_orbit (h : SimpleCycles vs) {v : List α} (hv : v ∈ vs)
    {m : ℕ} (hm : 0 < m) (hmlen : m ≤ vs.length)
    (hret : (nextF vs)^[m] v = v)
    (hmin : ∀ j, 0 < j → j < m → (nextF vs)^[j] v ≠ v)
    (pick : List (List α) → ℕ) :
    get_cycle vs v pick = orbitList (nextF vs) v m := by
  rw [show get_cycle vs v pick = reconstruct (getCycleLoop vs v pick
    (2 * vs.length + 1) ((succs vs v).map (fun c => (c, v))) (succs vs v)) v
    from rfl]
  rw [succs_eq_single h hv]
  have h0' : ([nextF vs v] : List (List α)) = [(nextF vs)^[0 + 1] v] := by
    simp
  have h0'' : (([nextF vs v] : List (List α)).map (fun c => (c, v))) =
      orbAssoc (nextF vs) v (0 + 1) := by
    rw [orbAssoc]
    rfl
  rw [h0'', h0']
  rw [getCycleLoop_sim h hv hret hmin pick (2 * vs.length + 1) 0
    (by omega) (by omega)]
  rw [reconstruct]
  have halk : alookup (orbAssoc (nextF vs) v m) v =
      some ((nextF vs)^[m - 1] v) := by
    apply alookup_of_mem _ (orbAssoc_keys_nodup h hv hret hmin)
    rw [orbAssoc]
    refine List.mem_map.mpr ⟨m - 1, List.mem_range.mpr (by omega), ?_⟩
    rw [show m - 1 + 1 = m by omega, hret]
  rw [halk]
  have hlen : (orbAssoc (nextF vs) v m).length = m := by
    simp [orbAssoc]
  have hwalk := walkParents_orb h hv hret hmin (m - 1) (by omega)
    ((orbAssoc (nextF vs) v m).length + 1) (by omega)
  rw [show m - 1 - (m - 1) = 0 by omega] at hwalk
  simpa using hwalk

end PathGraph

namespace PathGraph

variable {α : Type} [DecidableEq α] {vs : List (List α)}

lemma iterate_mul_period (f : List α → List α) {x : List α} {p : ℕ}
    (hp : f^[p] x = x) : ∀ c, f^[c * p] x = x := by
  intro c
  induction c with
  | zero => simp
  | succ n ih =>
    rw [show (n + 1) * p = p + n * p by ring, Function.iterate_add_apply, ih, hp]

lemma back_iterate (h : SimpleCycles vs) {x : List α} (hx : x ∈ vs) (k : ℕ) :
    ∃ j, (nextF vs)^[j] ((nextF vs)^[k] x) = x := by
  obtain ⟨p, hp0, _, hpret⟩ := exists_return h hx
  refine ⟨(k + 1) * p - k, ?_⟩
  rw [← Function.iterate_add_apply]
  have hge : k ≤ (k + 1) * p := by nlinarith
  rw [show (k + 1) * p - k + k = (k + 1) * p by omega]
  exact iterate_mul_period (nextF vs) hpret (k + 1)

lemma orbitList_nodup (h : SimpleCycles vs) {v : List α} (hv : v ∈ vs)
    {m : ℕ} (hret : (nextF vs)^[m] v = v)
    (hmin : ∀ j, 0 < j → j < m → (nextF vs)^[j] v ≠ v) :
    (orbitList (nextF vs) v m).Nodup := by
  rw [orbitList, List.nodup_map_iff_inj_on (List.nodup_range m)]
  intro x hx y hy hxy
  rw [List.mem_range] at hx hy
  by_contra hne
  rcases Nat.lt_or_ge x y with hlt | hge
  · exact orbit_distinct h hv hret hmin (x + 1) (y + 1)
      (by omega) (by omega) (by omega) hxy
  · exact orbit_distinct h hv hret hmin (y + 1) (x + 1)
      (by omega) (by omega) (by omega) hxy.symm

lemma mem_orbitList_self {v : List α} {m : ℕ} (hm : 0 < m)
    (hret : (nextF vs)^[m] v = v) : v ∈ orbitList (nextF vs) v m := by
  rw [orbitList]
  refine List.mem_map.mpr ⟨m - 1, List.mem_range.mpr (by omega), ?_⟩
  rw [show m - 1 + 1 = m by omega, hret]

lemma iterate_mem_orbitList {v : List α} {m : ℕ} (hm : 0 < m)
    (hret : (nextF vs)^[m] v = v) :
    ∀ k, (nextF vs)^[k] v ∈ orbitList (nextF vs) v m := by
  intro k
  induction k using Nat.strong_induction_on with
  | _ k ih =>
    rcases Nat.eq_zero_or_pos k with hk0 | hkpos
    · subst hk0
      simpa using mem_orbitList_self hm hret
    · rcases le_or_lt k m with hkm | hkm
      · rw [orbitList]
        exact List.mem_map.mpr ⟨k - 1, List.mem_range.mpr (by omega),
          by rw [show k - 1 + 1 = k by omega]⟩
      · have hred := Function.iterate_add_apply (nextF vs) (k - m) m v
        rw [hret, show k - m + m = k by omega] at hred
        rw [hred]
        exact ih (k - m) (by omega)

lemma mem_orbitList_iff {v x : List α} {m : ℕ} :
    x ∈ orbitList (nextF vs) v m ↔ ∃ j, j < m ∧ (nextF vs)^[j + 1] v = x := by
  rw [orbitList]
  constructor
  · intro hx
    obtain ⟨j, hj, hje⟩ := List.mem_map.mp hx
    exact ⟨j, List.mem_range.mp hj, hje⟩
  · rintro ⟨j, hj, hje⟩
    exact List.mem_map.mpr ⟨j, List.mem_range.mpr hj, hje⟩

end PathGraph

namespace PathGraph

variable {α : Type} [DecidableEq α] {vs : List (List α)}

lemma perm_getD_cons_eraseIdx :
    ∀ (l : List (List α)) (i : ℕ), i < l.length →
      l.Perm (l.getD i [] :: l.eraseIdx i) := by
  intro l
  induction l with
  | nil => intro i hi; simp at hi
  | cons a t ih =>
    intro i hi
    match i with
    | 0 => simp
    | i + 1 =>
      have hit : i < t.length := by simpa using hi
      simp only [List.getD_cons_succ, List.eraseIdx_cons_succ]
      exact ((ih i hit).cons a).trans (List.Perm.swap _ _ _)

lemma coveringLoop_partition (h : SimpleCycles vs)
    (pickC : List (List α) → ℕ) (pickG : ℕ → List (List α) → ℕ) :
    ∀ fuel pending, pending.length ≤ fuel → pending.Nodup →
      (∀ x ∈ pending, x ∈ vs) →
      (∀ x ∈ pending, ∀ k, (nextF vs)^[k] x ∈ pending) →
      (coveringLoop vs pickC pickG fuel pending).2 = [] ∧
      ((coveringLoop vs pickC pickG fuel pending).1.flatten).Perm pending := by
  intro fuel
  induction fuel with
  | zero =>
    intro pending hlen _ _ _
    have : pending = [] := List.length_eq_zero.mp (by omega)
    subst this
    simp [coveringLoop]
  | succ n ih =>
    intro pending hlen hnd hsub hclosed
    match hpe : pending with
    | [] => simp [coveringLoop]
    | p0 :: ps =>
      have hlen0 : 0 < (p0 :: ps).length := by simp
      set i := pickC (p0 :: ps) % (p0 :: ps).length with hi
      have hilt : i < (p0 :: ps).length := Nat.mod_lt _ hlen0
      set start := (p0 :: ps).getD i [] with hstart
      have hstart_mem : start ∈ (p0 :: ps) := by
        rw [hstart, List.getD_eq_getElem _ _ hilt]
        exact List.getElem_mem hilt
      have hstart_vs : start ∈ vs := hsub start hstart_mem
      obtain ⟨m, hm, hmlen, hret, hmin⟩ := exists_min_return h hstart_vs
      have hcyc : get_cycle vs start (pickG n) =
          orbitList (nextF vs) start m :=
        get_cycle_orbit h hstart_vs hm hmlen hret hmin (pickG n)
      have hcyc_ne : get_cycle vs start (pickG n) ≠ [] := by
        rw [hcyc, orbitList]
        simp only [ne_eq, List.map_eq_nil_iff, List.range_eq_nil]
        omega
      -- unfold one loop step
      rw [coveringLoop]
      rw [if_neg hcyc_ne]
      simp only []
      -- the new pending set
      set cyc := get_cycle vs start (pickG n) with hcycdef
      set E := (p0 :: ps).eraseIdx i with hE
      have hperm1 : (p0 :: ps).Perm (start :: E) :=
        perm_getD_cons_eraseIdx (p0 :: ps) i hilt
      set pending' := removeCovered E cyc with hpending'
      have hsEnd : (start :: E).Nodup := hperm1.nodup hnd
      have hEnd : E.Nodup := (List.nodup_cons.mp hsEnd).2
      have hstart_notE : start ∉ E := (List.nodup_cons.mp hsEnd).1
      have hEsub : ∀ x ∈ E, x ∈ (p0 :: ps) := fun x hx =>
        hperm1.symm.subset (List.mem_cons_of_mem _ hx)
      have hmemE_of_ne : ∀ x ∈ (p0 :: ps), x ≠ start → x ∈ E := by
        intro x hx hne
        rcases List.mem_cons.mp (hperm1.subset hx) with he | hm
        · exact absurd he hne
        · exact hm
      -- members of the cycle
      have hcyc_sub : ∀ x ∈ cyc, x ∈ (p0 :: ps) := by
        intro x hx
        rw [hcyc, mem_orbitList_iff] at hx
        obtain ⟨j, _, hje⟩ := hx
        rw [← hje]
        exact hclosed start hstart_mem (j + 1)
      have hcyc_nodup : cyc.Nodup := by
        rw [hcyc]
        exact orbitList_nodup h hstart_vs hret hmin
      have hstart_cyc : start ∈ cyc := by
        rw [hcyc]
        exact mem_orbitList_self hm hret
      -- closure of the cycle under membership transfer
      have hcyc_back : ∀ x ∈ vs, ∀ k, (nextF vs)^[k] x ∈ cyc → x ∈ cyc := by
        intro x hx k hkx
        rw [hcyc, mem_orbitList_iff] at hkx ⊢
        obtain ⟨j, hj, hje⟩ := hkx
        obtain ⟨k', hk'⟩ := back_iterate h hx k
        have : (nextF vs)^[k' + (j + 1)] start = x := by
          rw [Function.iterate_add_apply, hje, hk']
        obtain ⟨j', hj', hje'⟩ := mem_orbitList_iff.mp
          (this ▸ iterate_mem_orbitList hm hret (k' + (j + 1)))
        exact ⟨j', hj', hje'⟩
      -- invariants for the recursive call
      have hp'_nd : pending'.Nodup := hEnd.filter _
      have hp'_sub : ∀ x ∈ pending', x ∈ vs := by
        intro x hx
        exact hsub x (hEsub x (List.mem_of_mem_filter hx))
      have hp'_mem : ∀ x, x ∈ pending' ↔ x ∈ E ∧ x ∉ cyc := by
        intro x
        rw [hpending', removeCovered, List.mem_filter]
        simp
      have hp'_closed : ∀ x ∈ pending', ∀ k, (nextF vs)^[k] x ∈ pending' := by
        intro x hx k
        obtain ⟨hxE, hxnc⟩ := (hp'_mem x).mp hx
        have hxp : x ∈ (p0 :: ps) := hEsub x hxE
        have hkx_p : (nextF vs)^[k] x ∈ (p0 :: ps) := hclosed x hxp k
        have hkx_nc : (nextF vs)^[k] x ∉ cyc := by
          intro hc
          exact hxnc (hcyc_back x (hsub x hxp) k hc)
        have hkx_ne : (nextF vs)^[k] x ≠ start := by
          intro he
          exact hkx_nc (he ▸ hstart_cyc)
        exact (hp'_mem _).mpr ⟨hmemE_of_ne _ hkx_p hkx_ne, hkx_nc⟩
      have hp'_len : pending'.length ≤ n := by
        have h1 : pending'.length ≤ E.length := List.length_filter_le _ _
        have h2 : (p0 :: ps).length = (start :: E).length := hperm1.length_eq
        simp only [List.length_cons] at h2 hlen
        omega
      obtain ⟨hr2, hr1⟩ := ih pending' hp'_len hp'_nd hp'_sub hp'_closed
      constructor
      · simpa using hr2
      · -- flatten (cyc :: r.1) = cyc ++ r.1.flatten ~ cyc ++ pending' ~ pending
        simp only [List.flatten_cons]
        have hfilters : E.Perm (E.filter (fun x => decide (x ∈ cyc)) ++
            pending') := by
          rw [hpending', removeCovered]
          have : (E.filter (fun x => decide (x ∉ cyc))) =
              (E.filter (fun x => !decide (x ∈ cyc))) := by
            apply List.filter_congr
            intro x _
            simp
          rw [this]
          exact (List.filter_append_perm _ E).symm
        have hcycperm : cyc.Perm (start :: E.filter (fun x => decide (x ∈ cyc))) := by
          rw [List.perm_ext_iff_of_nodup hcyc_nodup ?nd]
          case nd =>
            rw [List.nodup_cons]
            refine ⟨fun hmem => hstart_notE (List.mem_of_mem_filter hmem),
              hEnd.filter _⟩
          intro x
          constructor
          · intro hx
            rcases eq_or_ne x start with rfl | hne
            · exact List.mem_cons_self _ _
            · exact List.mem_cons_of_mem _ (List.mem_filter.mpr
                ⟨hmemE_of_ne x (hcyc_sub x hx) hne, by simpa using hx⟩)
          · intro hx
            rcases List.mem_cons.mp hx with rfl | hmem
            · exact hstart_cyc
            · simpa using (List.mem_filter.mp hmem).2
        have hstep1 : (cyc ++
            (coveringLoop vs pickC pickG n pending').1.flatten).Perm
            (cyc ++ pending') := List.Perm.append_left cyc hr1
        have hstep2 : (cyc ++ pending').Perm
            ((start :: E.filter (fun x => decide (x ∈ cyc))) ++ pending') :=
          List.Perm.append_right pending' hcycperm
        have hstep3 : ((start :: E.filter (fun x => decide (x ∈ cyc))) ++
            pending').Perm (start :: E) := by
          simp only [List.cons_append]
          exact List.Perm.cons start hfilters.symm
        exact ((hstep1.trans hstep2).trans hstep3).trans hperm1.symm

end PathGraph

namespace PathGraph

variable {α : Type} [DecidableEq α] {vs : List (List α)}

lemma covering_cycles_partition (h : SimpleCycles vs)
    (pickC : List (List α) → ℕ) (pickG : ℕ → List (List α) → ℕ) :
    (covering_cycles vs pickC pickG).2 = [] ∧
      ((covering_cycles vs pickC pickG).1.flatten).Perm vs :=
  coveringLoop_partition h pickC pickG vs.length vs le_rfl (nodup_of_simple h)
    (fun _ hx => hx) (fun x hx k => iterate_mem h hx k)

end PathGraph

/-- Auxiliary decidable check: every possible `set.pop` outcome of the cycle
cover on the two touching squares consists of exactly two 4-cycles, one per
square, with nothing dropped. -/
lemma gca1 : PathGraph.getCycleAll ([[0,1],[1,2],[2,3],[3,0],[3,4],[4,5],[5,6],[6,3]] : List (List ℕ)) [0,1] = [[[1,2],[2,3],[3,0],[0,1]]] := by decide

lemma gca2 : PathGraph.getCycleAll ([[0,1],[1,2],[2,3],[3,0],[3,4],[4,5],[5,6],[6,3]] : List (List ℕ)) [1,2] = [[[2,3],[3,0],[0,1],[1,2]]] := by decide

lemma gca3 : PathGraph.getCycleAll ([[0,1],[1,2],[2,3],[3,0],[3,4],[4,5],[5,6],[6,3]] : List (List ℕ)) [2,3] = [[[3,0],[0,1],[1,2],[2,3]]] := by decide

lemma gca4 : PathGraph.getCycleAll ([[0,1],[1,2],[2,3],[3,0],[3,4],[4,5],[5,6],[6,3]] : List (List ℕ)) [3,0] = [[[0,1],[1,2],[2,3],[3,0]]] := by decide

lemma gca5 : PathGraph.getCycleAll ([[0,1],[1,2],[2,3],[3,0],[3,4],[4,5],[5,6],[6,3]] : List (List ℕ)) [3,4] = [[[4,5],[5,6],[6,3],[3,4]]] := by decide

lemma gca6 : PathGraph.getCycleAll ([[0,1],[1,2],[2,3],[3,0],[3,4],[4,5],[5,6],[6,3]] : List (List ℕ)) [4,5] = [[[5,6],[6,3],[3,4],[4,5]]] := by decide

lemma gca7 : PathGraph.getCycleAll ([[0,1],[1,2],[2,3],[3,0],[3,4],[4,5],[5,6],[6,3]] : List (List ℕ)) [5,6] = [[[6,3],[3,4],[4,5],[5,6]]] := by decide

lemma gca8 : PathGraph.getCycleAll ([[0,1],[1,2],[2,3],[3,0],[3,4],[4,5],[5,6],[6,3]] : List (List ℕ)) [6,3] = [[[3,4],[4,5],[5,6],[6,3]]] := by decide

lemma lb_empty : PathGraph.coveringLoopAll ([[0,1],[1,2],[2,3],[3,0],[3,4],[4,5],[5,6],[6,3]] : List (List ℕ)) 6 [] = [([],[])] := by decide

lemma lb_sq2 : PathGraph.coveringLoopAll ([[0,1],[1,2],[2,3],[3,0],[3,4],[4,5],[5,6],[6,3]] : List (List ℕ)) 7 [[3,4],[4,5],[5,6],[6,3]] =
    [([[[4,5],[5,6],[6,3],[3,4]]],[]),
     ([[[5,6],[6,3],[3,4],[4,5]]],[]),
     ([[[6,3],[3,4],[4,5],[5,6]]],[]),
     ([[[3,4],[4,5],[5,6],[6,3]]],[])] := by
  rw [PathGraph.coveringLoopAll]
  simp only [List.length_cons, List.length_nil, List.range_succ, List.range_zero,
    List.map_append, List.map_cons, List.map_nil, List.getD_cons_zero,
    List.getD_cons_succ, List.nil_append, List.cons_append,
    gca5, gca6, gca7, gca8]
  norm_num [PathGraph.removeCovered, lb_empty]
  decide

lemma lb_sq1 : PathGraph.coveringLoopAll ([[0,1],[1,2],[2,3],[3,0],[3,4],[4,5],[5,6],[6,3]] : List (List ℕ)) 7 [[0,1],[1,2],[2,3],[3,0]] =
    [([[[1,2],[2,3],[3,0],[0,1]]],[]),
     ([[[2,3],[3,0],[0,1],[1,2]]],[]),
     ([[[3,0],[0,1],[1,2],[2,3]]],[]),
     ([[[0,1],[1,2],[2,3],[3,0]]],[])] := by
  rw [PathGraph.coveringLoopAll]
  simp only [List.length_cons, List.length_nil, List.range_succ, List.range_zero,
    List.map_append, List.map_cons, List.map_nil, List.getD_cons_zero,
    List.getD_cons_succ, List.nil_append, List.cons_append,
    gca1, gca2, gca3, gca4]
  norm_num [PathGraph.removeCovered, lb_empty]
  decide

lemma cca_eq : PathGraph.coveringCyclesAll ([[0,1],[1,2],[2,3],[3,0],[3,4],[4,5],[5,6],[6,3]] : List (List ℕ)) =
    [([[[1,2],[2,3],[3,0],[0,1]], [[4,5],[5,6],[6,3],[3,4]]],[]),
     ([[[1,2],[2,3],[3,0],[0,1]], [[5,6],[6,3],[3,4],[4,5]]],[]),
     ([[[1,2],[2,3],[3,0],[0,1]], [[6,3],[3,4],[4,5],[5,6]]],[]),
     ([[[1,2],[2,3],[3,0],[0,1]], [[3,4],[4,5],[5,6],[6,3]]],[]),
     ([[[2,3],[3,0],[0,1],[1,2]], [[4,5],[5,6],[6,3],[3,4]]],[]),
     ([[[2,3],[3,0],[0,1],[1,2]], [[5,6],[6,3],[3,4],[4,5]]],[]),
     ([[[2,3],[3,0],[0,1],[1,2]], [[6,3],[3,4],[4,5],[5,6]]],[]),
     ([[[2,3],[3,0],[0,1],[1,2]], [[3,4],[4,5],[5,6],[6,3]]],[]),
     ([[[3,0],[0,1],[1,2],[2,3]], [[4,5],[5,6],[6,3],[3,4]]],[]),
     ([[[3,0],[0,1],[1,2],[2,3]], [[5,6],[6,3],[3,4],[4,5]]],[]),
     ([[[3,0],[0,1],[1,2],[2,3]], [[6,3],[3,4],[4,5],[5,6]]],[]),
     ([[[3,0],[0,1],[1,2],[2,3]], [[3,4],[4,5],[5,6],[6,3]]],[]),
     ([[[0,1],[1,2],[2,3],[3,0]], [[4,5],[5,6],[6,3],[3,4]]],[]),
     ([[[0,1],[1,2],[2,3],[3,0]], [[5,6],[6,3],[3,4],[4,5]]],[]),
     ([[[0,1],[1,2],[2,3],[3,0]], [[6,3],[3,4],[4,5],[5,6]]],[]),
     ([[[0,1],[1,2],[2,3],[3,0]], [[3,4],[4,5],[5,6],[6,3]]],[]),
     ([[[4,5],[5,6],[6,3],[3,4]], [[1,2],[2,3],[3,0],[0,1]]],[]),
     ([[[4,5],[5,6],[6,3],[3,4]], [[2,3],[3,0],[0,1],[1,2]]],[]),
     ([[[4,5],[5,6],[6,3],[3,4]], [[3,0],[0,1],[1,2],[2,3]]],[]),
     ([[[4,5],[5,6],[6,3],[3,4]], [[0,1],[1,2],[2,3],[3,0]]],[]),
     ([[[5,6],[6,3],[3,4],[4,5]], [[1,2],[2,3],[3,0],[0,1]]],[]),
     ([[[5,6],[6,3],[3,4],[4,5]], [[2,3],[3,0],[0,1],[1,2]]],[]),
     ([[[5,6],[6,3],[3,4],[4,5]], [[3,0],[0,1],[1,2],[2,3]]],[]),
     ([[[5,6],[6,3],[3,4],[4,5]], [[0,1],[1,2],[2,3],[3,0]]],[]),
     ([[[6,3],[3,4],[4,5],[5,6]], [[1,2],[2,3],[3,0],[0,1]]],[]),
     ([[[6,3],[3,4],[4,5],[5,6]], [[2,3],[3,0],[0,1],[1,2]]],[]),
     ([[[6,3],[3,4],[4,5],[5,6]], [[3,0],[0,1],[1,2],[2,3]]],[]),
     ([[[6,3],[3,4],[4,5],[5,6]], [[0,1],[1,2],[2,3],[3,0]]],[]),
     ([[[3,4],[4,5],[5,6],[6,3]], [[1,2],[2,3],[3,0],[0,1]]],[]),
     ([[[3,4],[4,5],[5,6],[6,3]], [[2,3],[3,0],[0,1],[1,2]]],[]),
     ([[[3,4],[4,5],[5,6],[6,3]], [[3,0],[0,1],[1,2],[2,3]]],[]),
     ([[[3,4],[4,5],[5,6],[6,3]], [[0,1],[1,2],[2,3],[3,0]]],[])] := by
  rw [PathGraph.coveringCyclesAll]
  norm_num only [List.length_cons, List.length_nil]
  rw [PathGraph.coveringLoopAll]
  simp only [List.length_cons, List.length_nil, List.range_succ, List.range_zero,
    List.map_append, List.map_cons, List.map_nil, List.getD_cons_zero,
    List.getD_cons_succ, List.nil_append, List.cons_append,
    gca1, gca2, gca3, gca4, gca5, gca6, gca7, gca8]
  norm_num [PathGraph.removeCovered, lb_sq1, lb_sq2]
  decide

lemma c2_all_outcomes_ok :
    (PathGraph.coveringCyclesAll
        ([[0,1],[1,2],[2,3],[3,0],[3,4],[4,5],[5,6],[6,3]] : List (List ℕ))).all
      (fun r =>
        r.2.isEmpty && r.1.length == 2 &&
        r.1.all (fun c => c.length == 4 &&
          ((c.all (fun p => decide (p ∈ ([[0,1],[1,2],[2,3],[3,0]] : List (List ℕ))))) ||
           (c.all (fun p => decide (p ∈ ([[3,4],[4,5],[5,6],[6,3]] : List (List ℕ)))))))) = true := by
  rw [cca_eq]
  decide

/-- C1: on any vertex set forming one or more disjoint simple cycles under
sink-equals-source adjacency (nonempty paths, pairwise-distinct sources,
pairwise-distinct sinks, and every sink continued by some source),
`PathGraph.covering_cycles` — under every `set.pop` order — drops no vertex
(so no coverage warning would be reported) and yields cycles whose
concatenation is a permutation of the input: every input segment appears in
exactly one yielded cycle, with no omissions and no duplicates. -/
theorem C1_covering_cycles_partition {α : Type} [DecidableEq α]
    (vs : List (List α)) (pickC : List (List α) → ℕ)
    (pickG : ℕ → List (List α) → ℕ) (h : PathGraph.SimpleCycles vs) :
    (PathGraph.covering_cycles vs pickC pickG).2 = [] ∧
      ((PathGraph.covering_cycles vs pickC pickG).1.flatten).Perm vs :=
  PathGraph.covering_cycles_partition h pickC pickG

/-- Witness for C1: a single 4-segment square, with a concrete pop order. -/
theorem C1_covering_cycles_partition_witness :
    PathGraph.SimpleCycles ([[0,1],[1,2],[2,3],[3,0]] : List (List ℕ)) ∧
      ((PathGraph.covering_cycles ([[0,1],[1,2],[2,3],[3,0]] : List (List ℕ))
          (fun _ => 0) (fun _ _ => 0)).2 = [] ∧
        ((PathGraph.covering_cycles ([[0,1],[1,2],[2,3],[3,0]] : List (List ℕ))
          (fun _ => 0) (fun _ _ => 0)).1.flatten).Perm
          ([[0,1],[1,2],[2,3],[3,0]] : List (List ℕ))) :=
  ⟨⟨by decide, by decide, by decide, by decide⟩,
    C1_covering_cycles_partition _ _ _ ⟨by decide, by decide, by decide, by decide⟩⟩

/-- C2: on two disjoint 4-segment square cycles touching at exactly one
shared coordinate (point `3`), the cycle cover — under every `set.pop`
order — returns exactly two cycles of 4 segments each, each lying entirely
within one square; it never merges them into one 8-segment cycle through the
shared point. -/
theorem C2_shared_vertex_two_cycles
    (pickC : List (List ℕ) → ℕ) (pickG : ℕ → List (List ℕ) → ℕ) :
    (PathGraph.covering_cycles
        ([[0,1],[1,2],[2,3],[3,0],[3,4],[4,5],[5,6],[6,3]] : List (List ℕ))
        pickC pickG).1.length = 2 ∧
    (PathGraph.covering_cycles
        ([[0,1],[1,2],[2,3],[3,0],[3,4],[4,5],[5,6],[6,3]] : List (List ℕ))
        pickC pickG).2 = [] ∧
    ∀ c ∈ (PathGraph.covering_cycles
        ([[0,1],[1,2],[2,3],[3,0],[3,4],[4,5],[5,6],[6,3]] : List (List ℕ))
        pickC pickG).1,
      c.length = 4 ∧
        ((∀ p ∈ c, p ∈ ([[0,1],[1,2],[2,3],[3,0]] : List (List ℕ))) ∨
         (∀ p ∈ c, p ∈ ([[3,4],[4,5],[5,6],[6,3]] : List (List ℕ)))) := by
  have hmem := PathGraph.covering_cycles_mem_all
    ([[0,1],[1,2],[2,3],[3,0],[3,4],[4,5],[5,6],[6,3]] : List (List ℕ))
    pickC pickG
  have hall := c2_all_outcomes_ok
  rw [List.all_eq_true] at hall
  have h := hall _ hmem
  simp only [Bool.and_eq_true, beq_iff_eq, List.isEmpty_iff, List.all_eq_true,
    Bool.or_eq_true, decide_eq_true_eq] at h
  obtain ⟨⟨h2, hlen⟩, hcyc⟩ := h
  refine ⟨hlen, h2, ?_⟩
  intro c hc
  obtain ⟨hclen, hin⟩ := hcyc c hc
  exact ⟨hclen, hin⟩

/-- C5 counterexample: a stream truncated in the middle of a lineto command
(`"!0 0|10"` ends after one coordinate) does NOT fail — the `StopIteration`
is caught by the loop's handler and the accumulated (here empty) point list
is yielded — contradicting the claim that truncation mid-command raises. -/
theorem C5_counterexample :
    EdgePy.edge_format_to_point_lists (String.toList "!0 0|10") =
      .ok [([], none)] ∧
    (Except.ok [(([] : List EdgePy.Entry), (none : Option BBox))] :
      Except Unit (List EdgePy.Yield)) ≠ .error () := by
  constructor
  · simp +decide [EdgePy.edge_format_to_point_lists, EdgePy.tokenize,
      EdgePy.tokenizeAux, EdgePy.matchDecimal, EdgePy.matchHex, EdgePy.spanList,
      EdgePy.isCmdChar, EdgePy.isDigitChar, EdgePy.isHexClassChar,
      EdgePy.nextPoint, EdgePy.parse_number, EdgePy.parseDecimal,
      EdgePy.splitOnDot, EdgePy.decValue, EdgePy.decDigitVal, EdgePy.edgeLoop,
      String.toList]
  · simp

namespace EdgePy

/-- If every fully-present point token parses (`tokensOk`), the parse loop
never errors: truncation anywhere inside a command is absorbed by the
`StopIteration` handler, which yields the accumulated list. -/
lemma tokensOk_edgeLoop_ok : ∀ (fuel : ℕ) (toks : List (List Char))
    (pl : List Entry) (bb : Option BBox) (prev : ℚ × ℚ),
    tokensOk fuel toks = true →
    ∃ ys, edgeLoop fuel toks pl bb prev = .ok ys := by
  intro fuel
  induction fuel with
  | zero => intro toks pl bb prev h; simp [tokensOk] at h
  | succ fuel ih =>
    intro toks pl bb prev h
    cases toks with
    | nil => exact ⟨[(pl, bb)], rfl⟩
    | cons c rest =>
      rw [tokensOk] at h
      cases hnp : nextPoint rest with
      | error e =>
        cases e with
        | stopIter =>
          refine ⟨[(pl, bb)], ?_⟩
          simp only [edgeLoop, hnp]
        | valueErr => simp [hnp] at h
      | ok pr =>
        obtain ⟨curr, rest'⟩ := pr
        simp only [hnp] at h
        by_cases hc1 : c = ['!']
        · rw [if_pos (Or.inl hc1 : c = ['!'] ∨ c = ['|'] ∨ c = ['/'])] at h
          by_cases hne : curr ≠ prev
          · obtain ⟨ys, hys⟩ := ih rest' pl none curr h
            refine ⟨(pl, bb) :: ys, ?_⟩
            simp only [edgeLoop, hnp, if_pos hc1, if_pos hne, hys]
          · obtain ⟨ys, hys⟩ := ih rest' pl bb prev h
            refine ⟨ys, ?_⟩
            simp only [edgeLoop, hnp, if_pos hc1, if_neg hne]
            exact hys
        · by_cases hc2 : c = ['|'] ∨ c = ['/']
          · rw [if_pos (Or.inr hc2 : c = ['!'] ∨ c = ['|'] ∨ c = ['/'])] at h
            obtain ⟨ys, hys⟩ := ih rest' (pl ++ [.pt prev, .pt curr])
              (Util.merge_bounding_boxes bb
                (some (line_bounding_box prev curr))) curr h
            refine ⟨ys, ?_⟩
            simp only [edgeLoop, hnp, if_neg hc1, if_pos hc2]
            exact hys
          · have hcond : ¬(c = ['!'] ∨ c = ['|'] ∨ c = ['/']) := by
              intro hor
              rcases hor with h1 | h2
              · exact hc1 h1
              · exact hc2 h2
            rw [if_neg hcond] at h
            cases hnp2 : nextPoint rest' with
            | error e =>
              simp only [hnp2] at h
              cases e with
              | stopIter =>
                refine ⟨[(pl, bb)], ?_⟩
                simp only [edgeLoop, hnp, if_neg hc1, if_neg hc2, hnp2]
              | valueErr => exact absurd h (by simp)
            | ok pr2 =>
              obtain ⟨endPt, rest2⟩ := pr2
              simp only [hnp2] at h
              obtain ⟨ys, hys⟩ := ih rest2 (pl ++ [.pt prev, .ctrl curr, .pt endPt])
                (Util.merge_bounding_boxes bb
                  (some (quadratic_bounding_box prev curr endPt))) endPt h
              refine ⟨ys, ?_⟩
              simp only [edgeLoop, hnp, if_neg hc1, if_neg hc2, hnp2]
              exact hys

end EdgePy

/-- C5 (amended): `edge_format_to_point_lists` fails when the token stream
does not begin with a `!` moveto token (including the empty stream), and
whenever at most one token follows the initial `!` (the stream ends during
the initial moveto's own coordinates, which are read outside the `try`); but
a stream truncated in the middle of a later command never fails: whenever
the stream ends while reading any command's point, or a quadto's second
point, the `StopIteration` is caught and the accumulated point list is
yielded without the partial command; in general every stream with a complete
initial moveto whose fully-present point tokens all parse (`tokensOk`, which
holds for every truncation of a valid stream) yields a result rather than an
error. The concrete instances `"!0"`, `"!0 0|10"` and `"!0 0[1 1 2"`
illustrate the three behaviours. -/
theorem C5_error_conditions :
    (∀ s : List Char, (EdgePy.tokenize s).head? ≠ some ['!'] →
      EdgePy.edge_format_to_point_lists s = .error ()) ∧
    (∀ (s : List Char) (rest : List (List Char)),
      EdgePy.tokenize s = ['!'] :: rest → rest.length ≤ 1 →
      EdgePy.edge_format_to_point_lists s = .error ()) ∧
    (∀ (fuel : ℕ) (c : List Char) (rest : List (List Char))
        (pl : List EdgePy.Entry) (bb : Option BBox) (prev : ℚ × ℚ),
      EdgePy.nextPoint rest = .error .stopIter →
      EdgePy.edgeLoop (fuel + 1) (c :: rest) pl bb prev = .ok [(pl, bb)]) ∧
    (∀ (fuel : ℕ) (c : List Char) (rest rest' : List (List Char))
        (pl : List EdgePy.Entry) (bb : Option BBox) (prev curr : ℚ × ℚ),
      c ≠ ['!'] → ¬(c = ['|'] ∨ c = ['/']) →
      EdgePy.nextPoint rest = .ok (curr, rest') →
      EdgePy.nextPoint rest' = .error .stopIter →
      EdgePy.edgeLoop (fuel + 1) (c :: rest) pl bb prev = .ok [(pl, bb)]) ∧
    (∀ (s : List Char) (rest rest' : List (List Char)) (p0 : ℚ × ℚ),
      EdgePy.tokenize s = ['!'] :: rest →
      EdgePy.nextPoint rest = .ok (p0, rest') →
      EdgePy.tokensOk (rest'.length + 1) rest' = true →
      ∃ ys, EdgePy.edge_format_to_point_lists s = .ok ys) ∧
    EdgePy.edge_format_to_point_lists (String.toList "!0") = .error () ∧
    EdgePy.edge_format_to_point_lists (String.toList "!0 0|10") =
      .ok [([], none)] ∧
    EdgePy.edge_format_to_point_lists (String.toList "!0 0[1 1 2") =
      .ok [([], none)] := by
  refine ⟨?_, ?_, ?_, ?_, ?_, ?_, ?_, ?_⟩
  · intro s hs
    cases htok : EdgePy.tokenize s with
    | nil => rw [EdgePy.edge_format_to_point_lists, htok]
    | cons t rest =>
      rw [htok] at hs
      simp only [List.head?_cons, ne_eq, Option.some.injEq] at hs
      rw [EdgePy.edge_format_to_point_lists, htok]
      simp only [if_neg hs]
  · intro s rest htok hlen
    rw [EdgePy.edge_format_to_point_lists, htok]
    cases rest with
    | nil => simp only [eq_self_iff_true, if_true, EdgePy.nextPoint]
    | cons tx rest2 =>
      cases rest2 with
      | nil =>
        cases hpx : EdgePy.parse_number tx with
        | none => simp only [eq_self_iff_true, if_true, EdgePy.nextPoint, hpx]
        | some x => simp only [eq_self_iff_true, if_true, EdgePy.nextPoint, hpx]
      | cons ty rest3 => simp at hlen
  · intro fuel c rest pl bb prev h
    simp only [EdgePy.edgeLoop, h]
  · intro fuel c rest rest' pl bb prev curr hc1 hc2 hnp hnp2
    simp only [EdgePy.edgeLoop, hnp, if_neg hc1, if_neg hc2, hnp2]
  · intro s rest rest' p0 htok hnp hok
    obtain ⟨ys, hys⟩ :=
      EdgePy.tokensOk_edgeLoop_ok (rest'.length + 1) rest' [] none p0 hok
    refine ⟨ys, ?_⟩
    rw [EdgePy.edge_format_to_point_lists, htok]
    simp only [eq_self_iff_true, if_true, hnp]
    exact hys
  · simp +decide [EdgePy.edge_format_to_point_lists, EdgePy.tokenize,
      EdgePy.tokenizeAux, EdgePy.matchDecimal, EdgePy.matchHex, EdgePy.spanList,
      EdgePy.isCmdChar, EdgePy.isDigitChar, EdgePy.isHexClassChar,
      EdgePy.nextPoint, EdgePy.parse_number, EdgePy.parseDecimal,
      EdgePy.splitOnDot, EdgePy.decValue, EdgePy.decDigitVal, EdgePy.edgeLoop,
      String.toList]
  · simp +decide [EdgePy.edge_format_to_point_lists, EdgePy.tokenize,
      EdgePy.tokenizeAux, EdgePy.matchDecimal, EdgePy.matchHex, EdgePy.spanList,
      EdgePy.isCmdChar, EdgePy.isDigitChar, EdgePy.isHexClassChar,
      EdgePy.nextPoint, EdgePy.parse_number, EdgePy.parseDecimal,
      EdgePy.splitOnDot, EdgePy.decValue, EdgePy.decDigitVal, EdgePy.edgeLoop,
      String.toList]
  · simp +decide [EdgePy.edge_format_to_point_lists, EdgePy.tokenize,
      EdgePy.tokenizeAux, EdgePy.matchDecimal, EdgePy.matchHex, EdgePy.spanList,
      EdgePy.isCmdChar, EdgePy.isDigitChar, EdgePy.isHexClassChar,
      EdgePy.nextPoint, EdgePy.parse_number, EdgePy.parseDecimal,
      EdgePy.splitOnDot, EdgePy.decValue, EdgePy.decDigitVal, EdgePy.edgeLoop,
      String.toList]

/-- Witness for C5's universally quantified part at the stream `"0 0"`,
which does not begin with a moveto token. -/
theorem C5_error_conditions_witness :
    (EdgePy.tokenize (String.toList "0 0")).head? ≠ some ['!'] ∧
    EdgePy.edge_format_to_point_lists (String.toList "0 0") = .error () :=
  ⟨by decide, C5_error_conditions.1 (String.toList "0 0") (by decide)⟩

/-- C6: evaluation at the failing input `"!0 0|20 0!40 40|60 60"`. The
moveto to a different point yields the accumulated segment once, but no new
distinct segment begins: `point_list` is never reset, so the second yielded
list still contains the first segment's entries `(0,0),(1,0)`, and the
moveto target `(2,2)` is not its sole initial entry. The second conjunct
confirms the equal-point moveto no-op (`"!0 0!0 0|20 0"` yields a single
segment as if the second moveto were absent). -/
theorem C6_moveto_no_reset :
    EdgePy.edge_format_to_point_lists (String.toList "!0 0|20 0!40 40|60 60") =
      .ok [([.pt (0,0), .pt (1,0)], some (0,0,1,0)),
           ([.pt (0,0), .pt (1,0), .pt (2,2), .pt (3,3)], some (2,2,3,3))] ∧
    EdgePy.edge_format_to_point_lists (String.toList "!0 0!0 0|20 0") =
      .ok [([.pt (0,0), .pt (1,0)], some (0,0,1,0))] := by
  constructor <;>
  · simp +decide [EdgePy.edge_format_to_point_lists, EdgePy.tokenize,
      EdgePy.tokenizeAux, EdgePy.matchDecimal, EdgePy.matchHex, EdgePy.spanList,
      EdgePy.isCmdChar, EdgePy.isDigitChar, EdgePy.isHexClassChar,
      EdgePy.nextPoint, EdgePy.parse_number, EdgePy.parseDecimal,
      EdgePy.splitOnDot, EdgePy.decValue, EdgePy.decDigitVal, EdgePy.edgeLoop,
      EdgePy.line_bounding_box, Util.merge_bounding_boxes, String.toList,
      Prod.mk.injEq]
    try norm_num
    try simp [Prod.ext_iff]
    try norm_num

/-- C7 counterexample: on `"!0 0|10 0|10 10|0 10!0 0"` the parser yields TWO
point lists, not exactly one as the claim states (the final moveto yields the
accumulated list, and stream end yields it again, unreset). -/
theorem C7_counterexample :
    (EdgePy.edge_format_to_point_lists
        (String.toList "!0 0|10 0|10 10|0 10!0 0")).map List.length ≠
      .ok 1 := by
  have h : EdgePy.edge_format_to_point_lists
      (String.toList "!0 0|10 0|10 10|0 10!0 0") =
      .ok [([.pt (0,0), .pt (1/2,0), .pt (1/2,0), .pt (1/2,1/2),
             .pt (1/2,1/2), .pt (0,1/2)], some (0,0,1/2,1/2)),
           ([.pt (0,0), .pt (1/2,0), .pt (1/2,0), .pt (1/2,1/2),
             .pt (1/2,1/2), .pt (0,1/2)], none)] := by
    simp +decide [EdgePy.edge_format_to_point_lists, EdgePy.tokenize,
      EdgePy.tokenizeAux, EdgePy.matchDecimal, EdgePy.matchHex, EdgePy.spanList,
      EdgePy.isCmdChar, EdgePy.isDigitChar, EdgePy.isHexClassChar,
      EdgePy.nextPoint, EdgePy.parse_number, EdgePy.parseDecimal,
      EdgePy.splitOnDot, EdgePy.decValue, EdgePy.decDigitVal, EdgePy.edgeLoop,
      EdgePy.line_bounding_box, Util.merge_bounding_boxes, String.toList,
      Prod.mk.injEq]
    try norm_num
    try simp [Prod.ext_iff]
    try norm_num
  rw [h]
  simp [Except.map]

/-- C7 (amended): the square-with-closing-moveto input yields exactly two
point lists, both equal to the same open 6-entry sequence (coordinates
divided by 20), whose first point `(0,0)` differs from its last `(0,1/2)`:
the point sequence does not close. -/
theorem C7_square_two_open_yields :
    EdgePy.edge_format_to_point_lists
        (String.toList "!0 0|10 0|10 10|0 10!0 0") =
      .ok [([.pt (0,0), .pt (1/2,0), .pt (1/2,0), .pt (1/2,1/2),
             .pt (1/2,1/2), .pt (0,1/2)], some (0,0,1/2,1/2)),
           ([.pt (0,0), .pt (1/2,0), .pt (1/2,0), .pt (1/2,1/2),
             .pt (1/2,1/2), .pt (0,1/2)], none)] ∧
    ([.pt (0,0), .pt (1/2,0), .pt (1/2,0), .pt (1/2,1/2), .pt (1/2,1/2),
      .pt (0,1/2)] : List EdgePy.Entry).head? ≠
      ([.pt (0,0), .pt (1/2,0), .pt (1/2,0), .pt (1/2,1/2), .pt (1/2,1/2),
        .pt (0,1/2)] : List EdgePy.Entry).getLast? := by
  constructor
  · simp +decide [EdgePy.edge_format_to_point_lists, EdgePy.tokenize,
      EdgePy.tokenizeAux, EdgePy.matchDecimal, EdgePy.matchHex, EdgePy.spanList,
      EdgePy.isCmdChar, EdgePy.isDigitChar, EdgePy.isHexClassChar,
      EdgePy.nextPoint, EdgePy.parse_number, EdgePy.parseDecimal,
      EdgePy.splitOnDot, EdgePy.decValue, EdgePy.decDigitVal, EdgePy.edgeLoop,
      EdgePy.line_bounding_box, Util.merge_bounding_boxes, String.toList,
      Prod.mk.injEq]
    try norm_num
    try simp [Prod.ext_iff]
    try norm_num
  · simp [List.getLast?, Prod.mk.injEq]
    try norm_num
    try simp [Prod.ext_iff]
    try norm_num

/-- C9: `path_to_svg_format` emits a leading `M` with the first point, a
command letter per subsequent unit (`L` for a line destination, `Q` for a
control/destination pair), and omits a command letter equal to the previous
one: `[A, B]` emits `M Ax Ay L Bx By`; `[A, (C,), B]` emits
`M Ax Ay Q Cx Cy Bx By`; two consecutive line destinations emit a single `L`
followed by both coordinate pairs. -/
theorem C9_path_emission (A B C D : ℚ × ℚ) :
    ShapePy.path_to_svg_toks [.pt A, .pt B] =
      .ok ["M", ShapePy.coordStr A, "L", ShapePy.coordStr B] ∧
    ShapePy.path_to_svg_toks [.pt A, .ctrl C, .pt B] =
      .ok ["M", ShapePy.coordStr A, "Q", ShapePy.coordStr C,
        ShapePy.coordStr B] ∧
    ShapePy.path_to_svg_toks [.pt A, .pt B, .pt D] =
      .ok ["M", ShapePy.coordStr A, "L", ShapePy.coordStr B,
        ShapePy.coordStr D] ∧
    ShapePy.path_to_svg_format [.pt A, .pt B] =
      .ok ("M " ++ ShapePy.coordStr A ++ " L " ++ ShapePy.coordStr B) ∧
    ShapePy.path_to_svg_format [.pt A, .ctrl C, .pt B] =
      .ok ("M " ++ ShapePy.coordStr A ++ " Q " ++ ShapePy.coordStr C ++ " " ++
        ShapePy.coordStr B) ∧
    ShapePy.path_to_svg_format [.pt A, .pt B, .pt D] =
      .ok ("M " ++ ShapePy.coordStr A ++ " L " ++ ShapePy.coordStr B ++ " " ++
        ShapePy.coordStr D) := by
  refine ⟨?_, ?_, ?_, ?_, ?_, ?_⟩ <;>
    simp [ShapePy.path_to_svg_toks, ShapePy.pathSvgToks,
      ShapePy.path_to_svg_format, ShapePy.joinSpace, String.append_assoc] <;>
    rfl

/-- C10: the two duplicated quadratic-Bézier evaluators are NOT extensionally
equal: edge.py's copy omits the factor `t` on the `p3` term. At
`p1 = p2 = (0,0)`, `p3 = (1,1)`, `t = 1/2`, edge.py returns `(1/2, 1/2)`
while util.py returns the correct `(1/4, 1/4)`; consequently the two
`quadratic_bounding_box` copies disagree at `p1 = (0,0)`,
`control = (2,0)`, `p2 = (1,0)`. -/
theorem C10_bezier_copies_differ :
    EdgePy.quadratic_bezier (0,0) (0,0) (1,1) (1/2) = (1/2, 1/2) ∧
    Util.quadratic_bezier (0,0) (0,0) (1,1) (1/2) = (1/4, 1/4) ∧
    EdgePy.quadratic_bezier (0,0) (0,0) (1,1) (1/2) ≠
      Util.quadratic_bezier (0,0) (0,0) (1,1) (1/2) ∧
    EdgePy.quadratic_bounding_box (0,0) (2,0) (1,0) = (0, 0, 14/9, 0) ∧
    Util.quadratic_bounding_box (0,0) (2,0) (1,0) = (0, 0, 4/3, 0) ∧
    EdgePy.quadratic_bounding_box (0,0) (2,0) (1,0) ≠
      Util.quadratic_bounding_box (0,0) (2,0) (1,0) := by
  refine ⟨?_, ?_, ?_, ?_, ?_, ?_⟩ <;>
    norm_num [EdgePy.quadratic_bezier, Util.quadratic_bezier,
      EdgePy.quadratic_bounding_box, Util.quadratic_bounding_box,
      EdgePy.quadratic_critical_points, Util.quadratic_critical_points,
      Util.critCandidate, Prod.ext_iff, min_def, max_def]

/-- C4: evaluation at the failing input. A piece whose `fillStyle0` id `"9"`
is unknown but whose stroke id `"1"` is known passes through
`xfl_domshape_to_visible_edges` UNCHANGED (the demoted ids are dead local
stores; the original tuple is yielded), so its segment IS contributed to
fill id `"9"`'s segment set, and the fill loop of `shape_graph_to_svg`
subsequently fails on the `fill_styles["9"]` lookup (`KeyError`) — the
conversion does not complete silently as the claim states. -/
theorem C4_unknown_fill_not_demoted :
    ShapePy.xfl_domshape_to_visible_edges
        [⟨[0, 0], some "9", none, some "1"⟩] [] ["1"] =
      [(⟨[0, 0], some "9", none, some "1"⟩ : ShapePy.Piece ℕ)] ∧
    ShapePy.fillAssignments
        (ShapePy.xfl_domshape_to_visible_edges
          [(⟨[0, 0], some "9", none, some "1"⟩ : ShapePy.Piece ℕ)] [] ["1"]) =
      [("9", [0, 0])] ∧
    ShapePy.svgFillsRun
        (ShapePy.getFills
          (ShapePy.fillAssignments
            (ShapePy.xfl_domshape_to_visible_edges
              [(⟨[0, 0], some "9", none, some "1"⟩ : ShapePy.Piece ℕ)] []
              ["1"]))
          (fun _ => 0) (fun _ _ => 0)) [] = .error "9" := by
  refine ⟨by decide, by decide, by rfl⟩

namespace EdgePy

lemma hexDigitVal_lt {c : Char} {d : ℕ} (h : hexDigitVal c = some d) : d < 16 := by
  unfold hexDigitVal at h
  split_ifs at h with h1 h2 h3 <;> injection h with h' <;> omega

lemma hexValue_lt : ∀ (l : List Char) (n : ℕ), hexValue l = some n →
    n < 16 ^ l.length := by
  intro l
  induction l with
  | nil =>
    intro n h
    injection h with h'
    simp [← h']
  | cons c rest ih =>
    intro n h
    unfold hexValue at h
    match hd : hexDigitVal c, hv : hexValue rest with
    | some d, some n' =>
      rw [hd, hv] at h
      injection h with h'
      have hdlt := hexDigitVal_lt hd
      have hrest := ih n' hv
      rw [← h']
      have hmul : d * 16 ^ rest.length ≤ 15 * 16 ^ rest.length :=
        Nat.mul_le_mul_right _ (by omega)
      calc d * 16 ^ rest.length + n'
          < d * 16 ^ rest.length + 16 ^ rest.length := by omega
        _ ≤ 15 * 16 ^ rest.length + 16 ^ rest.length := by omega
        _ = 16 ^ (rest.length + 1) := by ring
    | some d, none =>
      rw [hd, hv] at h
      exact absurd h (by simp)
    | none, _ =>
      rw [hd] at h
      exact absurd h (by simp)

lemma splitOnDot_no_dot : ∀ (l : List Char), '.' ∉ l → splitOnDot l = [l] := by
  intro l
  induction l with
  | nil => intro _; rfl
  | cons c rest ih =>
    intro h
    have hc : c ≠ '.' := fun he => h (he ▸ List.mem_cons_self c rest)
    have hrest : '.' ∉ rest := fun hm => h (List.mem_cons_of_mem c hm)
    rw [splitOnDot, ih hrest]
    simp [hc]

lemma splitOnDot_append_dot : ∀ (I F : List Char), '.' ∉ I →
    splitOnDot (I ++ '.' :: F) = I :: splitOnDot F := by
  intro I F
  induction I with
  | nil => intro _; simp [splitOnDot]
  | cons c rest ih =>
    intro h
    have hc : c ≠ '.' := fun he => h (he ▸ List.mem_cons_self c rest)
    have hrest : '.' ∉ rest := fun hm => h (List.mem_cons_of_mem c hm)
    rw [List.cons_append, splitOnDot, ih hrest]
    simp only [if_neg hc]
    constructor <;> rfl

end EdgePy

/-- C3 (amended): the hex branch of `parse_number` decodes as specified —
split on the dot, left-pad the integer part to 6 and right-pad the fraction
to 2 hex digits, read the 8 digits as a big-endian two's-complement signed
32-bit integer, divide by 256 and then by 20 — and a token whose padded
32-bit pattern has the sign bit set decodes to a negative value.
`parse_number "#000000.00"` is `0`; `parse_number "#004000.00"` is `819.2`
(0x400000 / 256 / 20 = 4096/5), not the `50.0` stated by the original
claim. -/
theorem C3_parse_number_hex_decode :
    (∀ (I F : List Char) (n : ℕ), I.length ≤ 6 → F.length ≤ 2 →
      '.' ∉ I → '.' ∉ F →
      EdgePy.hexValue (EdgePy.padLeftZeros I 6 ++ EdgePy.padRightZeros F 2) =
        some n →
      EdgePy.parse_number ('#' :: (I ++ '.' :: F)) =
        some ((((if n < 2 ^ 31 then (n : ℤ) else (n : ℤ) - 2 ^ 32) : ℚ) / 256)
          / 20) ∧
      (2 ^ 31 ≤ n →
        ((((if n < 2 ^ 31 then (n : ℤ) else (n : ℤ) - 2 ^ 32) : ℚ) / 256) / 20)
          < 0)) ∧
    EdgePy.parse_number (String.toList "#000000.00") = some 0 ∧
    EdgePy.parse_number (String.toList "#004000.00") = some (4096 / 5) := by
  refine ⟨?_, ?_, ?_⟩
  · intro I F n hI hF hIdot hFdot hval
    have hIlen : (EdgePy.padLeftZeros I 6).length = 6 := by
      simp only [EdgePy.padLeftZeros, List.length_append, List.length_replicate]
      omega
    have hFlen : (EdgePy.padRightZeros F 2).length = 2 := by
      simp only [EdgePy.padRightZeros, List.length_append, List.length_replicate]
      omega
    have hlen8 : (EdgePy.padLeftZeros I 6 ++ EdgePy.padRightZeros F 2).length = 8 := by
      rw [List.length_append, hIlen, hFlen]
    have hn32 : n < 2 ^ 32 := by
      have := EdgePy.hexValue_lt _ n hval
      rw [hlen8] at this
      omega
    constructor
    · rw [EdgePy.parse_number]
      rw [EdgePy.splitOnDot_append_dot I F hIdot, EdgePy.splitOnDot_no_dot F hFdot]
      simp only [hlen8, hval]
      norm_num
    · intro hsign
      rw [if_neg (by omega)]
      have hnn : (((n : ℤ) : ℚ)) = (n : ℚ) := by push_cast; ring
      rw [hnn]
      have hnum : ((n : ℚ) - 2 ^ 32) < 0 := by
        have : (n : ℚ) < 2 ^ 32 := by exact_mod_cast hn32
        linarith
      have h2 : ((n : ℚ) - 2 ^ 32) / 256 < 0 :=
        div_neg_of_neg_of_pos hnum (by norm_num)
      exact div_neg_of_neg_of_pos h2 (by norm_num)
  · simp +decide [EdgePy.parse_number, EdgePy.splitOnDot, EdgePy.hexValue,
      EdgePy.hexDigitVal, EdgePy.padLeftZeros, EdgePy.padRightZeros,
      String.toList]
  · simp +decide [EdgePy.parse_number, EdgePy.splitOnDot, EdgePy.hexValue,
      EdgePy.hexDigitVal, EdgePy.padLeftZeros, EdgePy.padRightZeros,
      String.toList]
    norm_num

/-- C3 counterexample: the claim's concrete value is wrong —
`parse_number "#004000.00"` is `4096/5` (= 819.2), which is not `50`. -/
theorem C3_counterexample :
    EdgePy.parse_number (String.toList "#004000.00") = some (4096 / 5) ∧
    (4096 / 5 : ℚ) ≠ 50 := by
  constructor
  · simp +decide [EdgePy.parse_number, EdgePy.splitOnDot, EdgePy.hexValue,
      EdgePy.hexDigitVal, EdgePy.padLeftZeros, EdgePy.padRightZeros,
      String.toList]
    norm_num
  · norm_num

/-- Witness for C3's general part at the token `#FF0000.00` (pattern
`0xFF000000`, sign bit set): the decode equation holds and the value is
negative. -/
theorem C3_parse_number_hex_decode_witness :
    EdgePy.parse_number (String.toList "#FF0000.00") =
      some ((((if (4278190080 : ℕ) < 2 ^ 31 then ((4278190080 : ℕ) : ℤ)
        else ((4278190080 : ℕ) : ℤ) - 2 ^ 32) : ℚ) / 256) / 20) ∧
    ((((if (4278190080 : ℕ) < 2 ^ 31 then ((4278190080 : ℕ) : ℤ)
        else ((4278190080 : ℕ) : ℤ) - 2 ^ 32) : ℚ) / 256) / 20) < 0 := by
  have h := C3_parse_number_hex_decode.1 (String.toList "FF0000")
    (String.toList "00") 4278190080 (by decide) (by decide) (by decide)
    (by decide) (by decide)
  exact ⟨h.1, h.2 (by norm_num)⟩

namespace Util

lemma bezAxis_expand (a b c t : ℚ) :
    bezAxis a b c t = (a - 2 * b + c) * t ^ 2 + 2 * (b - a) * t + a := by
  rw [bezAxis]
  ring

lemma bezAxis_linear_encl (a b c t : ℚ) (hd : a - 2 * b + c = 0)
    (h0 : 0 ≤ t) (h1 : t ≤ 1) :
    min a c ≤ bezAxis a b c t ∧ bezAxis a b c t ≤ max a c := by
  rw [bezAxis_expand, hd]
  have hma : min a c ≤ a := min_le_left a c
  have hmc : min a c ≤ c := min_le_right a c
  have hMa : a ≤ max a c := le_max_left a c
  have hMc : c ≤ max a c := le_max_right a c
  rcases le_total a b with hab | hab
  · constructor
    · nlinarith [mul_nonneg h0 (sub_nonneg.mpr hab)]
    · nlinarith [mul_nonneg (sub_nonneg.mpr h1) (sub_nonneg.mpr hab)]
  · constructor
    · nlinarith [mul_nonneg (sub_nonneg.mpr h1) (sub_nonneg.mpr hab)]
    · nlinarith [mul_nonneg h0 (sub_nonneg.mpr hab)]

lemma bezAxis_vertex_diff (a b c t : ℚ) (hd : a - 2 * b + c ≠ 0) :
    bezAxis a b c t - bezAxis a b c ((a - b) / (a - 2 * b + c)) =
      (a - 2 * b + c) * (t - (a - b) / (a - 2 * b + c)) ^ 2 := by
  rw [bezAxis_expand, bezAxis_expand]
  field_simp
  ring

lemma bezAxis_chord_upper (a b c t : ℚ) (hdpos : 0 < a - 2 * b + c)
    (h0 : 0 ≤ t) (h1 : t ≤ 1) : bezAxis a b c t ≤ max a c := by
  rw [bezAxis_expand]
  have hMa : a ≤ max a c := le_max_left a c
  have hMc : c ≤ max a c := le_max_right a c
  nlinarith [mul_nonneg (mul_nonneg hdpos.le h0) (sub_nonneg.mpr h1)]

lemma bezAxis_chord_lower (a b c t : ℚ) (hdneg : a - 2 * b + c < 0)
    (h0 : 0 ≤ t) (h1 : t ≤ 1) : min a c ≤ bezAxis a b c t := by
  rw [bezAxis_expand]
  have hma : min a c ≤ a := min_le_left a c
  have hmc : min a c ≤ c := min_le_right a c
  nlinarith [mul_nonneg (mul_nonneg (neg_nonneg.mpr hdneg.le) h0)
    (sub_nonneg.mpr h1)]

lemma bezAxis_monotone_encl (a b c t : ℚ) (hd : a - 2 * b + c ≠ 0)
    (hni : ¬(0 < (a - b) / (a - 2 * b + c) ∧ (a - b) / (a - 2 * b + c) < 1))
    (h0 : 0 ≤ t) (h1 : t ≤ 1) :
    min a c ≤ bezAxis a b c t ∧ bezAxis a b c t ≤ max a c := by
  rw [bezAxis_expand]
  have hma : min a c ≤ a := min_le_left a c
  have hmc : min a c ≤ c := min_le_right a c
  have hMa : a ≤ max a c := le_max_left a c
  have hMc : c ≤ max a c := le_max_right a c
  have h1t : (0:ℚ) ≤ 1 - t := sub_nonneg.mpr h1
  rcases lt_or_gt_of_ne hd with hdneg | hdpos
  · have hnd : (0:ℚ) ≤ -(a - 2 * b + c) := neg_nonneg.mpr hdneg.le
    rcases not_and_or.mp hni with hle | hge
    · -- interior parameter at or left of 0; with d < 0 this forces b ≤ a,
      -- so the parabola decreases on [0,1]: c ≤ f t ≤ a
      have hab : 0 ≤ a - b :=
        le_of_not_lt fun hab => hle (div_pos_of_neg_of_neg (by linarith) hdneg)
      constructor
      · nlinarith [mul_nonneg h1t hab,
          mul_nonneg (mul_nonneg h1t (by linarith : (0:ℚ) ≤ 1 + t)) hnd]
      · nlinarith [mul_nonneg h0 hab, mul_nonneg (mul_nonneg h0 h0) hnd]
    · -- interior parameter at or right of 1; with d < 0 this forces
      -- a - b ≤ d, so the parabola increases on [0,1]: a ≤ f t ≤ c
      have hab : a - b ≤ a - 2 * b + c := by
        have h1' : 1 ≤ (a - b) / (a - 2 * b + c) := not_lt.mp hge
        have := (le_div_iff_of_neg hdneg).mp h1'
        linarith
      constructor
      · nlinarith [mul_nonneg (mul_nonneg h0 h1t) hnd,
          mul_nonneg h0 (by linarith : (0:ℚ) ≤ c - a)]
      · nlinarith [mul_nonneg (mul_nonneg h1t h1t) hnd,
          mul_nonneg h1t (by linarith : (0:ℚ) ≤ (a - 2 * b + c) - (a - b))]
  · rcases not_and_or.mp hni with hle | hge
    · -- interior parameter at or left of 0; with 0 < d this forces a ≤ b,
      -- so the parabola increases on [0,1]: a ≤ f t ≤ c
      have hab : a - b ≤ 0 :=
        le_of_not_lt fun hab => hle (div_pos (by linarith) hdpos)
      constructor
      · nlinarith [mul_nonneg h0 (by linarith : (0:ℚ) ≤ b - a),
          mul_nonneg (mul_nonneg h0 h0) hdpos.le]
      · nlinarith [mul_nonneg h1t (by linarith : (0:ℚ) ≤ b - a),
          mul_nonneg (mul_nonneg h1t (by linarith : (0:ℚ) ≤ 1 + t)) hdpos.le]
    · -- interior parameter at or right of 1; with 0 < d this forces
      -- d ≤ a - b, so the parabola decreases on [0,1]: c ≤ f t ≤ a
      have hab : a - 2 * b + c ≤ a - b := by
        have h1' : 1 ≤ (a - b) / (a - 2 * b + c) := not_lt.mp hge
        exact (one_le_div hdpos).mp h1'
      constructor
      · nlinarith [mul_nonneg (mul_nonneg h1t h1t) hdpos.le,
          mul_nonneg h1t (by linarith : (0:ℚ) ≤ (a - b) - (a - 2 * b + c))]
      · nlinarith [mul_nonneg (mul_nonneg h0 h1t) hdpos.le,
          mul_nonneg h0 (by linarith : (0:ℚ) ≤ (a - b) - (a - 2 * b + c))]

end Util

namespace Util

lemma axis_enclosure (a b c t : ℚ) (h0 : 0 ≤ t) (h1 : t ≤ 1) :
    (axisMinMaxSpec a b c).1 ≤ bezAxis a b c t ∧
      bezAxis a b c t ≤ (axisMinMaxSpec a b c).2 := by
  rw [axisMinMaxSpec]
  split_ifs with hd hin
  · exact bezAxis_linear_encl a b c t hd h0 h1
  · rcases lt_or_gt_of_ne hd with hdneg | hdpos
    · constructor
      · exact le_trans (min_le_left _ _) (bezAxis_chord_lower a b c t hdneg h0 h1)
      · have hkey := bezAxis_vertex_diff a b c t hd
        have : bezAxis a b c t ≤ bezAxis a b c ((a - b) / (a - 2 * b + c)) := by
          nlinarith [sq_nonneg (t - (a - b) / (a - 2 * b + c))]
        exact le_trans this (le_max_right _ _)
    · constructor
      · have hkey := bezAxis_vertex_diff a b c t hd
        have : bezAxis a b c ((a - b) / (a - 2 * b + c)) ≤ bezAxis a b c t := by
          nlinarith [sq_nonneg (t - (a - b) / (a - 2 * b + c))]
        exact le_trans (min_le_right _ _) this
      · exact le_trans (bezAxis_chord_upper a b c t hdpos h0 h1) (le_max_left _ _)
  · exact bezAxis_monotone_encl a b c t hd hin h0 h1

lemma axisSpec_le_left (a b c : ℚ) : (axisMinMaxSpec a b c).1 ≤ a := by
  rw [axisMinMaxSpec]
  split_ifs
  · exact min_le_left a c
  · exact le_trans (min_le_left _ _) (min_le_left a c)
  · exact min_le_left a c

lemma axisSpec_le_right (a b c : ℚ) : (axisMinMaxSpec a b c).1 ≤ c := by
  rw [axisMinMaxSpec]
  split_ifs
  · exact min_le_right a c
  · exact le_trans (min_le_left _ _) (min_le_right a c)
  · exact min_le_right a c

lemma left_le_axisSpec (a b c : ℚ) : a ≤ (axisMinMaxSpec a b c).2 := by
  rw [axisMinMaxSpec]
  split_ifs
  · exact le_max_left a c
  · exact le_trans (le_max_left a c) (le_max_left _ _)
  · exact le_max_left a c

lemma right_le_axisSpec (a b c : ℚ) : c ≤ (axisMinMaxSpec a b c).2 := by
  rw [axisMinMaxSpec]
  split_ifs
  · exact le_max_right a c
  · exact le_trans (le_max_right a c) (le_max_left _ _)
  · exact le_max_right a c

lemma axisSpec_le_cand (a b c : ℚ) : (axisMinMaxSpec a b c).1 ≤ axisCand a b c := by
  rw [axisMinMaxSpec, axisCand]
  split_ifs with hd hin
  · exact min_le_left a c
  · exact min_le_right _ _
  · exact min_le_left a c

lemma cand_le_axisSpec (a b c : ℚ) : axisCand a b c ≤ (axisMinMaxSpec a b c).2 := by
  rw [axisMinMaxSpec, axisCand]
  split_ifs with hd hin
  · exact le_max_left a c
  · exact le_max_right _ _
  · exact le_max_left a c

lemma code_min_eq_spec (a b c X : ℚ)
    (hX : X = a ∨ ∃ t, 0 < t ∧ t < 1 ∧ X = bezAxis a b c t) :
    min a (min c (min (axisCand a b c) X)) = (axisMinMaxSpec a b c).1 := by
  have hXlower : (axisMinMaxSpec a b c).1 ≤ X := by
    rcases hX with hXa | ⟨t, ht0, ht1, hXt⟩
    · rw [hXa]
      exact axisSpec_le_left a b c
    · rw [hXt]
      exact (axis_enclosure a b c t ht0.le ht1.le).1
  apply le_antisymm
  · -- min of four ≤ spec minimum: spec is a min over a, c and possibly the
    -- interior candidate, each of which dominates one of the four
    rw [axisMinMaxSpec, axisCand]
    split_ifs with hd hin
    · exact le_min (min_le_left _ _) (le_trans (min_le_right _ _) (min_le_left _ _))
    · refine le_min (le_min (min_le_left _ _)
        (le_trans (min_le_right _ _) (min_le_left _ _))) ?_
      exact le_trans (min_le_right _ _)
        (le_trans (min_le_right _ _) (min_le_left _ _))
    · exact le_min (min_le_left _ _) (le_trans (min_le_right _ _) (min_le_left _ _))
  · exact le_min (axisSpec_le_left a b c) (le_min (axisSpec_le_right a b c)
      (le_min (axisSpec_le_cand a b c) hXlower))

lemma code_max_eq_spec (a b c X : ℚ)
    (hX : X = a ∨ ∃ t, 0 < t ∧ t < 1 ∧ X = bezAxis a b c t) :
    max a (max c (max (axisCand a b c) X)) = (axisMinMaxSpec a b c).2 := by
  have hXupper : X ≤ (axisMinMaxSpec a b c).2 := by
    rcases hX with hXa | ⟨t, ht0, ht1, hXt⟩
    · rw [hXa]
      exact left_le_axisSpec a b c
    · rw [hXt]
      exact (axis_enclosure a b c t ht0.le ht1.le).2
  apply le_antisymm
  · exact max_le (left_le_axisSpec a b c) (max_le (right_le_axisSpec a b c)
      (max_le (cand_le_axisSpec a b c) hXupper))
  · rw [axisMinMaxSpec, axisCand]
    split_ifs with hd hin
    · exact max_le (le_max_left _ _) (le_trans (le_max_left _ _) (le_max_right _ _))
    · refine max_le (max_le (le_max_left _ _)
        (le_trans (le_max_left _ _) (le_max_right _ _))) ?_
      exact le_trans (le_max_left _ _)
        (le_trans (le_max_right _ _) (le_max_right _ _))
    · exact max_le (le_max_left _ _) (le_trans (le_max_left _ _) (le_max_right _ _))

end Util

namespace Util

lemma critCandidate_own_x (p1 control p2 : ℚ × ℚ) :
    (critCandidate p1 control p2 (quadratic_critical_points p1 control p2).1).1
      = axisCand p1.1 control.1 p2.1 := by
  simp only [quadratic_critical_points]
  by_cases hd : p1.1 - 2 * control.1 + p2.1 = 0
  · simp [critCandidate, axisCand, hd]
  · simp only [if_neg hd]
    rw [critCandidate, axisCand, if_neg hd]
    by_cases hin : 0 < (p1.1 - control.1) / (p1.1 - 2 * control.1 + p2.1) ∧
        (p1.1 - control.1) / (p1.1 - 2 * control.1 + p2.1) < 1
    · rw [if_pos hin, if_pos hin]
      rfl
    · rw [if_neg hin, if_neg hin]

lemma critCandidate_own_y (p1 control p2 : ℚ × ℚ) :
    (critCandidate p1 control p2 (quadratic_critical_points p1 control p2).2).2
      = axisCand p1.2 control.2 p2.2 := by
  simp only [quadratic_critical_points]
  by_cases hd : p1.2 - 2 * control.2 + p2.2 = 0
  · simp [critCandidate, axisCand, hd]
  · simp only [if_neg hd]
    rw [critCandidate, axisCand, if_neg hd]
    by_cases hin : 0 < (p1.2 - control.2) / (p1.2 - 2 * control.2 + p2.2) ∧
        (p1.2 - control.2) / (p1.2 - 2 * control.2 + p2.2) < 1
    · rw [if_pos hin, if_pos hin]
      rfl
    · rw [if_neg hin, if_neg hin]

lemma critCandidate_fst_form (p1 control p2 : ℚ × ℚ) (o : Option ℚ) :
    (critCandidate p1 control p2 o).1 = p1.1 ∨
      ∃ t, 0 < t ∧ t < 1 ∧
        (critCandidate p1 control p2 o).1 = bezAxis p1.1 control.1 p2.1 t := by
  match o with
  | none => exact Or.inl rfl
  | some t =>
    rw [critCandidate]
    by_cases hin : 0 < t ∧ t < 1
    · exact Or.inr ⟨t, hin.1, hin.2, by rw [if_pos hin]; rfl⟩
    · rw [if_neg hin]
      exact Or.inl rfl

lemma critCandidate_snd_form (p1 control p2 : ℚ × ℚ) (o : Option ℚ) :
    (critCandidate p1 control p2 o).2 = p1.2 ∨
      ∃ t, 0 < t ∧ t < 1 ∧
        (critCandidate p1 control p2 o).2 = bezAxis p1.2 control.2 p2.2 t := by
  match o with
  | none => exact Or.inl rfl
  | some t =>
    rw [critCandidate]
    by_cases hin : 0 < t ∧ t < 1
    · exact Or.inr ⟨t, hin.1, hin.2, by rw [if_pos hin]; rfl⟩
    · rw [if_neg hin]
      exact Or.inl rfl

lemma code_min_eq_spec' (a b c X : ℚ)
    (hX : X = a ∨ ∃ t, 0 < t ∧ t < 1 ∧ X = bezAxis a b c t) :
    min a (min c (min X (axisCand a b c))) = (axisMinMaxSpec a b c).1 := by
  rw [min_comm X (axisCand a b c)]
  exact code_min_eq_spec a b c X hX

lemma code_max_eq_spec' (a b c X : ℚ)
    (hX : X = a ∨ ∃ t, 0 < t ∧ t < 1 ∧ X = bezAxis a b c t) :
    max a (max c (max X (axisCand a b c))) = (axisMinMaxSpec a b c).2 := by
  rw [max_comm X (axisCand a b c)]
  exact code_max_eq_spec a b c X hX

lemma quadratic_bounding_box_eq_spec (p1 control p2 : ℚ × ℚ) :
    quadratic_bounding_box p1 control p2 =
      quadratic_bounding_box_spec p1 control p2 := by
  simp only [quadratic_bounding_box, quadratic_bounding_box_spec,
    Prod.mk.injEq]
  refine ⟨?_, ?_, ?_, ?_⟩
  · rw [critCandidate_own_x]
    exact code_min_eq_spec _ _ _ _ (critCandidate_fst_form p1 control p2 _)
  · rw [critCandidate_own_y]
    exact code_min_eq_spec' _ _ _ _ (critCandidate_snd_form p1 control p2 _)
  · rw [critCandidate_own_x]
    exact code_max_eq_spec _ _ _ _ (critCandidate_fst_form p1 control p2 _)
  · rw [critCandidate_own_y]
    exact code_max_eq_spec' _ _ _ _ (critCandidate_snd_form p1 control p2 _)

lemma bezAxis_vertex_sub_a (a b c : ℚ) (hd : a - 2 * b + c ≠ 0) :
    bezAxis a b c ((a - b) / (a - 2 * b + c)) - a =
      -((a - b) ^ 2) / (a - 2 * b + c) := by
  rw [eq_div_iff hd, bezAxis_expand]
  field_simp
  ring

lemma bezAxis_vertex_sub_c (a b c : ℚ) (hd : a - 2 * b + c ≠ 0) :
    bezAxis a b c ((a - b) / (a - 2 * b + c)) - c =
      -((c - b) ^ 2) / (a - 2 * b + c) := by
  rw [eq_div_iff hd, bezAxis_expand]
  field_simp
  ring

lemma axisSpec_strict_above (a b c : ℚ) (hb : max a c < b) :
    max a c < (axisMinMaxSpec a b c).2 := by
  have hab : a < b := lt_of_le_of_lt (le_max_left a c) hb
  have hcb : c < b := lt_of_le_of_lt (le_max_right a c) hb
  have hdneg : a - 2 * b + c < 0 := by linarith
  have hd : a - 2 * b + c ≠ 0 := ne_of_lt hdneg
  have hin : 0 < (a - b) / (a - 2 * b + c) ∧
      (a - b) / (a - 2 * b + c) < 1 := by
    constructor
    · exact div_pos_of_neg_of_neg (by linarith) hdneg
    · rw [div_lt_one_of_neg hdneg]
      linarith
  have hva := bezAxis_vertex_sub_a a b c hd
  have hsqa : (0:ℚ) < (a - b) ^ 2 := by
    rw [sq]
    exact mul_pos_of_neg_of_neg (by linarith) (by linarith)
  have hsqc : (0:ℚ) < (c - b) ^ 2 := by
    rw [sq]
    exact mul_pos_of_neg_of_neg (by linarith) (by linarith)
  have hpos : (0:ℚ) < -((a - b) ^ 2) / (a - 2 * b + c) :=
    div_pos_of_neg_of_neg (by linarith) hdneg
  have hgt : max a c < bezAxis a b c ((a - b) / (a - 2 * b + c)) := by
    have hvc := bezAxis_vertex_sub_c a b c hd
    have hposc : (0:ℚ) < -((c - b) ^ 2) / (a - 2 * b + c) :=
      div_pos_of_neg_of_neg (by linarith) hdneg
    apply max_lt <;> linarith
  rw [axisMinMaxSpec, if_neg hd, if_pos hin]
  exact lt_of_lt_of_le hgt (le_max_right _ _)

lemma axisSpec_strict_below (a b c : ℚ) (hb : b < min a c) :
    (axisMinMaxSpec a b c).1 < min a c := by
  have hab : b < a := lt_of_lt_of_le hb (min_le_left a c)
  have hcb : b < c := lt_of_lt_of_le hb (min_le_right a c)
  have hdpos : 0 < a - 2 * b + c := by linarith
  have hd : a - 2 * b + c ≠ 0 := ne_of_gt hdpos
  have hin : 0 < (a - b) / (a - 2 * b + c) ∧
      (a - b) / (a - 2 * b + c) < 1 := by
    constructor
    · exact div_pos (by linarith) hdpos
    · rw [div_lt_one hdpos]
      linarith
  have hva := bezAxis_vertex_sub_a a b c hd
  have hvc := bezAxis_vertex_sub_c a b c hd
  have hsqa : (0:ℚ) < (a - b) ^ 2 := by
    rw [sq]
    exact mul_pos (by linarith) (by linarith)
  have hsqc : (0:ℚ) < (c - b) ^ 2 := by
    rw [sq]
    exact mul_pos (by linarith) (by linarith)
  have hnega : -((a - b) ^ 2) / (a - 2 * b + c) < 0 :=
    div_neg_of_neg_of_pos (by linarith) hdpos
  have hnegc : -((c - b) ^ 2) / (a - 2 * b + c) < 0 :=
    div_neg_of_neg_of_pos (by linarith) hdpos
  have hlt : bezAxis a b c ((a - b) / (a - 2 * b + c)) < min a c := by
    apply lt_min <;> linarith
  rw [axisMinMaxSpec, if_neg hd, if_pos hin]
  exact lt_of_le_of_lt (min_le_right _ _) hlt

end Util

/-- C8: util.py's `quadratic_bounding_box` returns, per axis, exactly the
min/max over the two endpoints and the curve point at the critical parameter
`t* = (p1-p2)/(p1-2*p2+p3)` whenever `t*` lies strictly in `(0,1)` (a zero
denominator meaning no interior extremum) — i.e. it coincides with the
spec-modelled `quadratic_bounding_box_spec` — and for a control point
strictly outside the axis-aligned hull of the endpoints the returned box
strictly exceeds the endpoint-only box on the corresponding side. -/
theorem C8_quadratic_bounding_box_correct (p1 control p2 : ℚ × ℚ) :
    Util.quadratic_bounding_box p1 control p2 =
      Util.quadratic_bounding_box_spec p1 control p2 ∧
    (max p1.1 p2.1 < control.1 →
      max p1.1 p2.1 < (Util.quadratic_bounding_box p1 control p2).2.2.1) ∧
    (control.1 < min p1.1 p2.1 →
      (Util.quadratic_bounding_box p1 control p2).1 < min p1.1 p2.1) ∧
    (max p1.2 p2.2 < control.2 →
      max p1.2 p2.2 < (Util.quadratic_bounding_box p1 control p2).2.2.2) ∧
    (control.2 < min p1.2 p2.2 →
      (Util.quadratic_bounding_box p1 control p2).2.1 < min p1.2 p2.2) := by
  have heq := Util.quadratic_bounding_box_eq_spec p1 control p2
  refine ⟨heq, ?_, ?_, ?_, ?_⟩
  · intro hb
    rw [heq]
    exact Util.axisSpec_strict_above p1.1 control.1 p2.1 hb
  · intro hb
    rw [heq]
    exact Util.axisSpec_strict_below p1.1 control.1 p2.1 hb
  · intro hb
    rw [heq]
    exact Util.axisSpec_strict_above p1.2 control.2 p2.2 hb
  · intro hb
    rw [heq]
    exact Util.axisSpec_strict_below p1.2 control.2 p2.2 hb

/-- Witness for C8 at `p1 = (0,0)`, `control = (2,3)`, `p2 = (1,1)`: the
control point lies strictly above the hull on both axes, and the returned
box strictly exceeds the endpoint-only box there. -/
theorem C8_quadratic_bounding_box_correct_witness :
    (max (0:ℚ) 1 < 2 ∧
      max (0:ℚ) 1 < (Util.quadratic_bounding_box (0,0) (2,3) (1,1)).2.2.1) ∧
    (max (0:ℚ) 1 < 3 ∧
      max (0:ℚ) 1 < (Util.quadratic_bounding_box (0,0) (2,3) (1,1)).2.2.2) :=
  ⟨⟨by norm_num,
      (C8_quadratic_bounding_box_correct (0,0) (2,3) (1,1)).2.1 (by norm_num)⟩,
   ⟨by norm_num,
      (C8_quadratic_bounding_box_correct (0,0) (2,3) (1,1)).2.2.2.1 (by norm_num)⟩⟩

